import Mathlib

/-! # drapeau: flag and subcommand registry, command line parser

Shallow embedding of `src/drapeau.h`.  The process-wide statics of the C file
are the fields of `State`; every operation takes the state and gives back the
new one.  A C string is a `String` (the characters before the terminator, its
bytes are the UTF-8 bytes), `strcmp(a, b) == 0` is equality of strings, a
nullable pointer is an `Option`, and an execution that leaves defined
behaviour (`strcmp` on a null or indeterminate pointer, a failed `assert`, a
read past the end of `argv`) ends in a `Fault`.

`errno` belongs to the state: `drapeauParse` tests it after `strtoull` and
never clears it.  It is zero at program start, and `memset`, `malloc` and
`strcmp` are taken to leave it alone.
-/

namespace Drapeau

/-! ## Platform and C library -/

/-- Implementation-defined behaviour that the code observes. -/
structure Platform where
  /-- plain `char` is a signed type -/
  charSigned : Bool
  /-- `strtoull` stores `EINVAL` in `errno` when it finds no digits
  (POSIX allows it; ISO C does not ask for it and glibc does not do it) -/
  noConvEINVAL : Bool
  deriving DecidableEq, Repr

/-- The values of `errno` that the code tells apart. -/
inductive Errno where
  | zero
  | EINVAL
  | ERANGE
  | unrelated
  deriving DecidableEq, Repr

/-- Ways in which an execution leaves defined behaviour. -/
inductive Fault where
  /-- `strcmp` called with a null pointer -/
  | strcmpNull
  /-- `strcmp` called with the indeterminate `name` of a freshly allocated box -/
  | strcmpUninit
  /-- an `assert` failed -/
  | assertFailed
  /-- an array was indexed outside its bounds -/
  | indexOutOfRange
  /-- `argv[arg]` was read with `arg >= argc`, as the value of a flag that is the
  last argument -/
  | argvOverrun
  deriving DecidableEq, Repr

/-- UTF-8 bytes of one character. -/
def charBytes (c : Char) : List Nat :=
  let v := c.toNat
  if v < 0x80 then [v]
  else if v < 0x800 then [0xC0 + v / 64, 0x80 + v % 64]
  else if v < 0x10000 then [0xE0 + v / 4096, 0x80 + (v / 64) % 64, 0x80 + v % 64]
  else [0xF0 + v / 262144, 0x80 + (v / 4096) % 64, 0x80 + (v / 64) % 64, 0x80 + v % 64]

/-- The bytes of a C string, terminator excluded. -/
def cbytes (s : String) : List Nat :=
  s.data.flatMap charBytes

/-! ## Data model -/

inductive FlagType where
  | FLAG_TYPE_NIL
  | FLAG_TYPE_BOOL
  | FLAG_TYPE_U64
  | FLAG_TYPE_STRING
  deriving DecidableEq, Repr

/-- The union `FlagKind`: the member that was last written. -/
inductive FlagKind where
  | boolean (b : Bool)
  | u64 (n : Nat)
  | str (s : Option String)
  deriving DecidableEq, Repr

structure Flag where
  name : String
  type : FlagType
  kind : FlagKind
  dfault : FlagKind
  desc : String
  deriving DecidableEq, Repr

def FLAG_CAPACITY : Nat := 256

/-- A `Subcmd`; `flags` holds the first `flags_len` slots of the array. -/
structure Subcmd where
  name : String
  desc : String
  is_activate : Bool
  flags : List Flag
  deriving DecidableEq, Repr

def SUBCOMMAND_CAPACITY : Nat := 64

inductive DrapeauErrKind where
  | DRAPEAU_ERR_KIND_OK
  | DRAPEAU_ERR_KIND_SUBCOMMAND_FIND
  | DRAPEAU_ERR_KIND_FLAG_FIND
  | DRAPEAU_ERR_KIND_INAVLID_NUMBER
  deriving DecidableEq, Repr

def DRAPEAU_HASHMAP_CAPACITY : Nat := 1024

/-- The `name` field of a `HashBox`: null after `memset`, indeterminate after
`malloc`, or a string. -/
inductive NamePtr where
  | null
  | uninit
  | str (s : String)
  deriving DecidableEq, Repr

/-- A `HashBox*`: null, or a box with its three fields. -/
inductive HashPtr where
  | null
  | box (name : NamePtr) (where_ : Nat) (next : HashPtr)
  deriving DecidableEq, Repr

/-- A `HashBox` stored in the array `hash_map`. -/
structure HashBox where
  name : NamePtr
  where_ : Nat
  next : HashPtr
  deriving DecidableEq, Repr

/-- The address `&hash_map[i]` seen as a `HashBox*`. -/
def HashBox.ptr (b : HashBox) : HashPtr :=
  .box b.name b.where_ b.next

/-- The box that `malloc` returns in `drapeauSubcmd`, after `next` was set to
null: `name` and `where` are indeterminate (`where` is never read before
`name`, which faults). -/
def freshBox : HashPtr :=
  .box .uninit 0 .null

/-- A slot of a flag array: `scope = none` is `main_flags`, `scope = some pos`
is `subcommands[pos].flags`. -/
structure FlagRef where
  scope : Option Nat
  idx : Nat
  deriving DecidableEq, Repr

/-- The statics of `drapeau.h`, with the `errno` of the C library. -/
structure State where
  main_prog_name : Option String
  main_prog_desc : Option String
  activated_subcmd : Option Nat
  subcommands : List Subcmd
  main_flags : List Flag
  drapeau_err : DrapeauErrKind
  hash_map : Nat → HashBox
  errno : Errno

/-- The statics at program start: zero-initialised. -/
def State.init : State where
  main_prog_name := none
  main_prog_desc := none
  activated_subcmd := none
  subcommands := []
  main_flags := []
  drapeau_err := .DRAPEAU_ERR_KIND_OK
  hash_map := fun _ => ⟨.null, 0, .null⟩
  errno := .zero

/-! ## The name index -/

/-- The conversion `(uint32_t)*letter` of one byte. -/
def charToU32 (P : Platform) (b : Nat) : Nat :=
  if P.charSigned && decide (128 ≤ b) then b + (2 ^ 32 - 256) else b

/-- One round of the loop of `drapeauHash`, in `uint32_t`. -/
def hashStep (P : Platform) (hash b : Nat) : Nat :=
  ((charToU32 P b ^^^ hash) * 16777619) % 2 ^ 32

/-- The function `drapeauHash` on the bytes of its argument: the loop, and the
returned `hash ^ (hash >> 10) << 10`, in which the shifts bind tighter than the
exclusive or and all operands are `uint32_t`. -/
def hashBytes (P : Platform) (bs : List Nat) : Nat :=
  let hash := bs.foldl (hashStep P) 0x811c9dc5
  hash ^^^ (((hash >>> 10) <<< 10) % 2 ^ 32)

def drapeauHash (P : Platform) (letter : String) : Nat :=
  hashBytes P (cbytes letter)

/-- The loop of `findSubcmdPosition`: `some w` is `true` with `*output = w`,
`none` is `false`. -/
def findLoop (subcmd_name : String) : HashPtr → Except Fault (Option Nat)
  | .null => .ok none
  | .box .null _ _ => .error .strcmpNull
  | .box .uninit _ _ => .error .strcmpUninit
  | .box (.str s) w next =>
    if subcmd_name = s then .ok (some w) else findLoop subcmd_name next

def findSubcmdPosition (P : Platform) (st : State) (subcmd_name : String) :
    Except Fault (Option Nat) :=
  let hash := drapeauHash P subcmd_name
  if hash < DRAPEAU_HASHMAP_CAPACITY then
    findLoop subcmd_name (st.hash_map hash).ptr
  else .error .indexOutOfRange

def drapeauStart (name desc : String) (st : State) : State :=
  { st with
    main_prog_name := some name
    main_prog_desc := some desc
    hash_map := fun _ => ⟨.null, 0, .null⟩ }

/-- In `drapeauSubcmd`: walk from `hash_box` to the box whose `next` is null and
store the entry there, with a fresh box behind it. -/
def fillLast (subcmd_name : String) (pos : Nat) : HashPtr → HashPtr
  | .null => .null
  | .box _ _ .null => .box (.str subcmd_name) pos freshBox
  | .box n w next => .box n w (fillLast subcmd_name pos next)

/-- Returns the new state and the handle `&subcmd->is_activate`, as the
position of the subcommand.  `malloc` is taken to succeed.  The entry goes
into the array element when the bucket is empty (`next` is null), and into the
last allocated box otherwise; either way a fresh box is hung behind it. -/
def drapeauSubcmd (P : Platform) (subcmd_name desc : String) (st : State) :
    Except Fault (State × Nat) :=
  if st.subcommands.length < SUBCOMMAND_CAPACITY then
    let hash := drapeauHash P subcmd_name
    if hash < DRAPEAU_HASHMAP_CAPACITY then
      let head := st.hash_map hash
      let head1 : HashBox :=
        match head.next with
        | .null => ⟨.str subcmd_name, st.subcommands.length, freshBox⟩
        | nx => { head with next := fillLast subcmd_name st.subcommands.length nx }
      .ok ({ st with
              hash_map := fun i => if i = hash then head1 else st.hash_map i
              subcommands := st.subcommands ++ [⟨subcmd_name, desc, false, []⟩] },
           st.subcommands.length)
    else .error .indexOutOfRange
  else .error .assertFailed

/-! ## Flag declarations -/

/-- Apply `f` to the element at position `i`, if there is one. -/
def modifyAt {α : Type} (f : α → α) : Nat → List α → List α
  | _, [] => []
  | 0, a :: as => f a :: as
  | i + 1, a :: as => a :: modifyAt f i as

/-- The flag array of a scope, up to its length. -/
def flagsOf (scope : Option Nat) (st : State) : List Flag :=
  match scope with
  | none => st.main_flags
  | some pos =>
    match st.subcommands[pos]? with
    | some sc => sc.flags
    | none => []

/-- Write through a `Flag*`. -/
def writeFlag (r : FlagRef) (f : Flag → Flag) (st : State) : State :=
  match r.scope with
  | none => { st with main_flags := modifyAt f r.idx st.main_flags }
  | some pos =>
    { st with
      subcommands :=
        modifyAt (fun sc => { sc with flags := modifyAt f r.idx sc.flags }) pos st.subcommands }

/-- The content of a slot that `drapeauGetFlag` hands out: the zero bytes of the
static array.  Every caller overwrites all five fields before anything reads
them (the null `name` is shown as the empty string). -/
def zeroFlag : Flag :=
  ⟨"", .FLAG_TYPE_NIL, .u64 0, .u64 0, ""⟩

/-- Returns the `Flag*` (`none` is the null pointer) and the state with the
length of the scope incremented.  A position that the lookup gives is read in
the list of declared subcommands; the index holds no other position
(`findSubcmdPosition_inv`). -/
def drapeauGetFlag (P : Platform) (subcmd : Option String) (st : State) :
    Except Fault (Option FlagRef × State) :=
  match subcmd with
  | some s =>
    match findSubcmdPosition P st s with
    | .error e => .error e
    | .ok none => .ok (none, st)
    | .ok (some pos) =>
      match st.subcommands[pos]? with
      | none => .error .indexOutOfRange
      | some sc =>
        if sc.flags.length < FLAG_CAPACITY then
          .ok (some ⟨some pos, sc.flags.length⟩,
            { st with
              subcommands :=
                modifyAt (fun c => { c with flags := c.flags ++ [zeroFlag] }) pos
                  st.subcommands })
        else .error .assertFailed
  | none =>
    if st.main_flags.length < FLAG_CAPACITY then
      .ok (some ⟨none, st.main_flags.length⟩,
        { st with main_flags := st.main_flags ++ [zeroFlag] })
    else .error .assertFailed

/-- The common body of `drapeauBool`, `drapeauU64` and `drapeauStr`: they differ
in the type tag and in the union member they store. -/
def declareFlag (P : Platform) (flag_name : String) (ty : FlagType) (dfault : FlagKind)
    (desc : String) (subcmd : Option String) (st : State) :
    Except Fault (Option FlagRef × State) :=
  match drapeauGetFlag P subcmd st with
  | .error e => .error e
  | .ok (none, st1) =>
    .ok (none, { st1 with drapeau_err := .DRAPEAU_ERR_KIND_SUBCOMMAND_FIND })
  | .ok (some r, st1) =>
    .ok (some r, writeFlag r (fun _ => ⟨flag_name, ty, dfault, dfault, desc⟩) st1)

/-- Returns the handle `&flag->kind.boolean` as the slot of the flag. -/
def drapeauBool (P : Platform) (flag_name : String) (dfault : Bool) (desc : String)
    (subcmd : Option String) (st : State) : Except Fault (Option FlagRef × State) :=
  declareFlag P flag_name .FLAG_TYPE_BOOL (.boolean dfault) desc subcmd st

/-- Returns the handle `&flag->kind.u64` as the slot of the flag; `dfault` is a
`uint64_t`. -/
def drapeauU64 (P : Platform) (flag_name : String) (dfault : Nat) (desc : String)
    (subcmd : Option String) (st : State) : Except Fault (Option FlagRef × State) :=
  declareFlag P flag_name .FLAG_TYPE_U64 (.u64 (dfault % 2 ^ 64)) desc subcmd st

/-- Returns the handle `&flag->kind.str` as the slot of the flag. -/
def drapeauStr (P : Platform) (flag_name : String) (dfault : Option String) (desc : String)
    (subcmd : Option String) (st : State) : Except Fault (Option FlagRef × State) :=
  declareFlag P flag_name .FLAG_TYPE_STRING (.str dfault) desc subcmd st

/-! ## `strtoull` with base 0 -/

def ULLONG_MAX : Nat := 2 ^ 64 - 1

/-- The function `isspace` in the C locale. -/
def isspace (c : Char) : Bool :=
  c.toNat == 32 || (decide (9 ≤ c.toNat) && decide (c.toNat ≤ 13))

/-- The value of a digit or letter, as `strtoull` reads it: `0`-`9`, `a`-`z`,
`A`-`Z` by character code. -/
def digitVal (c : Char) : Option Nat :=
  let n := c.toNat
  if 48 ≤ n ∧ n ≤ 57 then some (n - 48)
  else if 97 ≤ n ∧ n ≤ 122 then some (n - 87)
  else if 65 ≤ n ∧ n ≤ 90 then some (n - 55)
  else none

/-- A character is a digit of the base. -/
def isDigitOf (base : Nat) (c : Char) : Bool :=
  match digitVal c with
  | some d => decide (d < base)
  | none => false

/-- The optional sign: whether it is a minus (code 45; plus is 43), and what
follows. -/
def takeSign : List Char → Bool × List Char
  | [] => (false, [])
  | c :: r =>
    if c.toNat = 45 then (true, r)
    else if c.toNat = 43 then (false, r)
    else (false, c :: r)

/-- The base that `strtoull` finds for base 0, and the digits to read: `0x` or
`0X` before a hexadecimal digit gives 16, another leading `0` gives 8,
anything else 10 (`0` is code 48, `x` 120, `X` 88). -/
def takeBase : List Char → Nat × List Char
  | [] => (10, [])
  | c :: r =>
    if c.toNat = 48 then
      match r with
      | x :: d :: r1 =>
        if (x.toNat = 120 ∨ x.toNat = 88) ∧ isDigitOf 16 d = true then (16, d :: r1)
        else (8, c :: r)
      | _ => (8, c :: r)
    else (10, c :: r)

/-- Read the longest run of digits of the base; `acc` is `none` until a digit
was read. -/
def scanDigits (base : Nat) : List Char → Option Nat → Option Nat
  | [], acc => acc
  | c :: cs, acc =>
    match digitVal c with
    | some d => if d < base then scanDigits base cs (some (acc.getD 0 * base + d)) else acc
    | none => acc

/-- The call `strtoull(s, NULL, 0)` of the C library (ISO C 7.22.1.4): skip white
space, take an optional sign, find the base from the leading `0x` or `0`, read
the longest run of digits.  Without a digit the result is 0 and `errno` is left
alone, or set to `EINVAL` where the platform does so; a value above
`ULLONG_MAX` gives `ULLONG_MAX` with `errno = ERANGE`; a minus sign negates in
`unsigned long long`.  Returns the value and the new `errno`. -/
def strtoull (P : Platform) (s : String) (errno : Errno) : Nat × Errno :=
  let signed := takeSign (s.data.dropWhile isspace)
  let based := takeBase signed.2
  match scanDigits based.1 based.2 none with
  | none => (0, if P.noConvEINVAL then .EINVAL else errno)
  | some v =>
    if ULLONG_MAX < v then (ULLONG_MAX, .ERANGE)
    else (if signed.1 then (2 ^ 64 - v) % 2 ^ 64 else v, errno)

/-! ## Parsing -/

/-- The test `argv[arg][0] == '-'`. -/
def startsWithDash (s : String) : Bool :=
  match s.data with
  | c :: _ => c == '-'
  | [] => false

/-- The string `&argv[arg][1]`. -/
def afterDash (s : String) : String :=
  ⟨s.data.tail⟩

/-- The search `while (j < flags_len && strcmp(&argv[arg][1], flags[j].name) != 0) ++j`:
the final `j`, which is the length of the list when no name is equal. -/
def flagSearch (name : String) : List Flag → Nat
  | [] => 0
  | f :: fs => if name = f.name then 0 else flagSearch name fs + 1

/-- How one round of the `while (arg < argc)` loop ends. -/
inductive Step where
  /-- `return` -/
  | ret (st : State)
  /-- the round is over, `arg` moved past the token -/
  | next (st : State)
  /-- the round is over, `arg` moved past the token and its value -/
  | next2 (st : State)

/-- One round of the loop of `drapeauParse` in the scope `scope`: `tok` is
`argv[arg]` and `rest` are the arguments behind it. -/
def parseToken (P : Platform) (scope : Option Nat) (tok : String) (rest : List String)
    (st : State) : Except Fault Step :=
  if tok = "--" then .ok (.next st)
  else if !startsWithDash tok then
    .ok (.ret { st with drapeau_err := .DRAPEAU_ERR_KIND_FLAG_FIND })
  else
    let flags := flagsOf scope st
    let j := flagSearch (afterDash tok) flags
    match flags[j]? with
    | none => .ok (.ret { st with drapeau_err := .DRAPEAU_ERR_KIND_FLAG_FIND })
    | some flag =>
      match flag.type with
      | .FLAG_TYPE_BOOL =>
        .ok (.next (writeFlag ⟨scope, j⟩ (fun f => { f with kind := .boolean true }) st))
      | .FLAG_TYPE_U64 =>
        match rest with
        | [] => .error .argvOverrun
        | v :: _ =>
          let r := strtoull P v st.errno
          let st1 :=
            writeFlag ⟨scope, j⟩ (fun f => { f with kind := .u64 r.1 }) { st with errno := r.2 }
          if r.2 = .EINVAL ∨ r.2 = .ERANGE then
            .ok (.ret { st1 with drapeau_err := .DRAPEAU_ERR_KIND_INAVLID_NUMBER })
          else .ok (.next2 st1)
      | .FLAG_TYPE_STRING =>
        match rest with
        | [] => .error .argvOverrun
        | v :: _ =>
          .ok (.next2 (writeFlag ⟨scope, j⟩ (fun f => { f with kind := .str (some v) }) st))
      | .FLAG_TYPE_NIL => .error .assertFailed

/-- The state in which a round ends. -/
def Step.state : Step → State
  | .ret st => st
  | .next st => st
  | .next2 st => st

/-- The loop `while (arg < argc)` over the arguments from `argv[arg]` on. -/
def parseLoop (P : Platform) (scope : Option Nat) : List String → State → Except Fault State
  | [], st => .ok st
  | tok :: rest, st =>
    match parseToken P scope tok rest st with
    | .error e => .error e
    | .ok (.ret st1) => .ok st1
    | .ok (.next st1) => parseLoop P scope rest st1
    | .ok (.next2 st1) =>
      match rest with
      | [] => .error .argvOverrun
      | _ :: rest1 => parseLoop P scope rest1 st1

/-- The function `drapeauParse(argc, argv)` with `argc = argv.length`: nothing
to do below two arguments; a first argument without a leading `-` is looked up
as a subcommand, which is activated and whose flags become the active scope
for the arguments behind it; otherwise the loop runs in the global scope from
the first argument on. -/
def drapeauParse (P : Platform) (argv : List String) (st : State) : Except Fault State :=
  match argv with
  | [] => .ok st
  | [_] => .ok st
  | _ :: first :: rest =>
    if !startsWithDash first then
      match findSubcmdPosition P st first with
      | .error e => .error e
      | .ok none => .ok { st with drapeau_err := .DRAPEAU_ERR_KIND_SUBCOMMAND_FIND }
      | .ok (some pos) =>
        if pos < st.subcommands.length then
          parseLoop P (some pos) rest
            { st with
              activated_subcmd := some pos
              subcommands :=
                modifyAt (fun sc => { sc with is_activate := true }) pos st.subcommands }
        else .error .indexOutOfRange
    else parseLoop P none (first :: rest) st

def drapeauPrintErr (st : State) : Option String :=
  match st.drapeau_err with
  | .DRAPEAU_ERR_KIND_OK => none
  | .DRAPEAU_ERR_KIND_SUBCOMMAND_FIND => some "Drapeau cannot find an appropriate subcommnads"
  | .DRAPEAU_ERR_KIND_FLAG_FIND => some "Drapeau cannot find an appropriate flag"
  | .DRAPEAU_ERR_KIND_INAVLID_NUMBER => some "Invalid number or overflowed number is given"

/-! ## Sequences of declarations -/

/-- The calls `drapeauSubcmd(name, desc)` for each pair of the list, in order. -/
def declareSubcmds (P : Platform) : List (String × String) → State → Except Fault State
  | [], st => .ok st
  | (n, d) :: rest, st =>
    match drapeauSubcmd P n d st with
    | .error e => .error e
    | .ok (st1, _) => declareSubcmds P rest st1

/-- One call of `drapeauBool`, `drapeauU64` or `drapeauStr`, without the
subcommand argument. -/
inductive FlagDecl where
  | bool (name : String) (dfault : Bool) (desc : String)
  | u64 (name : String) (dfault : Nat) (desc : String)
  | str (name : String) (dfault : Option String) (desc : String)
  deriving DecidableEq, Repr

def FlagDecl.name : FlagDecl → String
  | .bool n _ _ => n
  | .u64 n _ _ => n
  | .str n _ _ => n

/-- The record that the declaration stores in its slot. -/
def FlagDecl.flag : FlagDecl → Flag
  | .bool n v desc => ⟨n, .FLAG_TYPE_BOOL, .boolean v, .boolean v, desc⟩
  | .u64 n v desc => ⟨n, .FLAG_TYPE_U64, .u64 (v % 2 ^ 64), .u64 (v % 2 ^ 64), desc⟩
  | .str n v desc => ⟨n, .FLAG_TYPE_STRING, .str v, .str v, desc⟩

/-- The call that the declaration stands for. -/
def FlagDecl.run (P : Platform) (subcmd : Option String) (d : FlagDecl) (st : State) :
    Except Fault (Option FlagRef × State) :=
  match d with
  | .bool n v desc => drapeauBool P n v desc subcmd st
  | .u64 n v desc => drapeauU64 P n v desc subcmd st
  | .str n v desc => drapeauStr P n v desc subcmd st

/-- The calls of the list in order, all with the same subcommand argument;
gives the handles they return and the final state. -/
def declareFlags (P : Platform) (subcmd : Option String) :
    List FlagDecl → State → Except Fault (List (Option FlagRef) × State)
  | [], st => .ok ([], st)
  | d :: ds, st =>
    match d.run P subcmd st with
    | .error e => .error e
    | .ok (r, st1) =>
      match declareFlags P subcmd ds st1 with
      | .error e => .error e
      | .ok (rs, st2) => .ok (r :: rs, st2)

/-- A registry: a state that `drapeauStart` followed by declarations that
return produces from the statics of a program start. -/
inductive Registry (P : Platform) : State → Prop where
  | start (name desc : String) : Registry P (drapeauStart name desc State.init)
  | subcmd {st st1 : State} {h : Nat} (name desc : String) :
    Registry P st → drapeauSubcmd P name desc st = .ok (st1, h) → Registry P st1
  | flag {st st1 : State} {r : Option FlagRef} (d : FlagDecl) (subcmd : Option String) :
    Registry P st → d.run P subcmd st = .ok (r, st1) → Registry P st1

/-! ## The shape of the name index -/

/-- The index entries of bucket `h`: the names of the list that hash to `h`,
each with its position counted from `k`. -/
def bucketEntries (P : Platform) (h : Nat) : List String → Nat → List (String × Nat)
  | [], _ => []
  | n :: ns, k =>
    if drapeauHash P n = h then (n, k) :: bucketEntries P h ns (k + 1)
    else bucketEntries P h ns (k + 1)

/-- The allocated boxes of a bucket that holds the entries, ending in the fresh
box. -/
def chainOf : List (String × Nat) → HashPtr
  | [] => freshBox
  | (n, w) :: es => .box (.str n) w (chainOf es)

/-- The array element of a bucket that holds the entries. -/
def bucketOf : List (String × Nat) → HashBox
  | [] => ⟨.null, 0, .null⟩
  | (n, w) :: es => ⟨.str n, w, chainOf es⟩

/-- The first position stored under a name. -/
def assocFind (name : String) : List (String × Nat) → Option Nat
  | [] => none
  | (n, w) :: es => if name = n then some w else assocFind name es

/-- The name index agrees with the subcommand array: every bucket holds, in
declaration order, the subcommands whose name hashes to it. -/
def IndexAgrees (P : Platform) (st : State) : Prop :=
  ∀ h, st.hash_map h = bucketOf (bucketEntries P h (st.subcommands.map Subcmd.name) 0)

/-- Between `st` and `st1` every flag slot kept its name, type and default, and
kept its value unless its name with a leading `-` is among the tokens. -/
def Keeps (toks : List String) (st st1 : State) : Prop :=
  ∀ (sc : Option Nat) (j : Nat) (f : Flag), (flagsOf sc st)[j]? = some f →
    ∃ f1, (flagsOf sc st1)[j]? = some f1 ∧ f1.name = f.name ∧ f1.type = f.type ∧
      f1.dfault = f.dfault ∧ (("-" ++ f.name) ∉ toks → f1.kind = f.kind)

/-! ## Numerals -/

/-- The value of a string of digits of the base, read from the left with `acc`
as the value so far; `none` when a character is no digit of the base. -/
def numVal (base : Nat) : List Char → Nat → Option Nat
  | [], acc => some acc
  | c :: cs, acc =>
    match digitVal c with
    | some d => if d < base then numVal base cs (acc * base + d) else none
    | none => none

/-- The token is a numeral of `v`: decimal digits not starting with `0`, or `0x`
or `0X` and at least one hexadecimal digit, or `0` and octal digits. -/
def IsNumeral (tok : String) (v : Nat) : Prop :=
  (∃ c cs, tok.data = c :: cs ∧ c.toNat ≠ 48 ∧ numVal 10 (c :: cs) 0 = some v) ∨
  (∃ z x d ds, tok.data = z :: x :: d :: ds ∧ z.toNat = 48 ∧ (x.toNat = 120 ∨ x.toNat = 88) ∧
    numVal 16 (d :: ds) 0 = some v) ∨
  (∃ z ds, tok.data = z :: ds ∧ z.toNat = 48 ∧ numVal 8 ds 0 = some v)

/-! ## Example registries -/

/-- A platform like Linux with glibc on x86: `char` is signed, `strtoull` leaves
`errno` alone when it finds no digits. -/
def glibcPlatform : Platform :=
  ⟨true, false⟩

/-- A platform like the BSDs: `strtoull` stores `EINVAL` when it finds no
digits. -/
def bsdPlatform : Platform :=
  ⟨true, true⟩

/-- The state after `drapeauSubcmd(name, desc)`; the state before when the call
faults. -/
def afterSubcmd (P : Platform) (name desc : String) (st : State) : State :=
  match drapeauSubcmd P name desc st with
  | .ok (st1, _) => st1
  | .error _ => st

/-- The state after a flag declaration; the state before when the call
faults. -/
def afterFlag (P : Platform) (d : FlagDecl) (subcmd : Option String) (st : State) : State :=
  match d.run P subcmd st with
  | .ok (_, st1) => st1
  | .error _ => st

/-- The program `prog` with the subcommand `build` that owns the boolean flag
`verbose` (default false), and the global flags `n` (integer, default 7) and
`debug` (boolean, default false). -/
def demoRegistry (P : Platform) : State :=
  afterFlag P (.bool "debug" false "more output") none
    (afterFlag P (.u64 "n" 7 "a number") none
      (afterFlag P (.bool "verbose" false "say more") (some "build")
        (afterSubcmd P "build" "compile" (drapeauStart "prog" "a demo" State.init))))

/-- The program `prog` with the subcommand `build` that owns a boolean flag
named `-` (default false). -/
def dashRegistry (P : Platform) : State :=
  afterFlag P (.bool "-" false "") (some "build")
    (afterSubcmd P "build" "compile" (drapeauStart "prog" "a demo" State.init))

/-- The state after `drapeauParse`; the state before when the call faults. -/
def afterParse (P : Platform) (argv : List String) (st : State) : State :=
  match drapeauParse P argv st with
  | .ok st1 => st1
  | .error _ => st

/-- The program `prog` with the subcommands `build` and `test`, each owning a
boolean flag `verbose` (default false), and the global flags `n` (integer,
default 7), `s` (string, default null) and `debug` (boolean, default false). -/
def toolRegistry (P : Platform) : State :=
  afterFlag P (.bool "debug" false "more output") none
    (afterFlag P (.str "s" none "a text") none
      (afterFlag P (.u64 "n" 7 "a number") none
        (afterFlag P (.bool "verbose" false "say more") (some "test")
          (afterSubcmd P "test" "check"
            (afterFlag P (.bool "verbose" false "say more") (some "build")
              (afterSubcmd P "build" "compile"
                (drapeauStart "prog" "a demo" State.init)))))))

/-! ## Rounds and occurrences -/

/-- From `st`, whole rounds of the loop in the scope consume exactly the
arguments `pre`, none of them returns, and the state is then `st1`: the next
argument is examined in flag position.  A round does not look further than the
value of its flag. -/
inductive Rounds (P : Platform) (scope : Option Nat) : State → List String → State → Prop where
  | done (st : State) : Rounds P scope st [] st
  | next {st s st1 : State} {tok : String} {pre : List String} :
    parseToken P scope tok [] st = .ok (.next s) → Rounds P scope s pre st1 →
    Rounds P scope st (tok :: pre) st1
  | next2 {st s st1 : State} {tok v : String} {pre : List String} :
    parseToken P scope tok [v] st = .ok (.next2 s) → Rounds P scope s pre st1 →
    Rounds P scope st (tok :: v :: pre) st1

/-- The arguments that the loop of `drapeauParse` examines: all behind the
program name, without the first one when it does not start with `-`. -/
def loopArgs (argv : List String) : List String :=
  match argv with
  | _ :: first :: rest => if startsWithDash first then first :: rest else rest
  | _ => []

/-- What an argument in flag position is for the flags `flags`. -/
inductive Occurrence where
  /-- the separator `--` -/
  | separator
  /-- a flag that takes no value, with its slot and the value it assigns -/
  | plain (slot : Nat) (value : FlagKind)
  /-- a flag that takes the next argument, with its slot and the value it assigns -/
  | valued (slot : Nat) (value : FlagKind)
  /-- anything else: no flag of the scope, or a flag whose value is missing -/
  | unmatched

/-- The argument `tok` in flag position, with the argument `next` behind it, as
the command line syntax reads it: `--` is the separator, `-name` of a boolean
flag assigns true, `-name` of an integer flag assigns the number that
`strtoull` reads from the next argument, `-name` of a string flag assigns the
next argument verbatim. -/
def occurrenceAt (P : Platform) (flags : List Flag) (tok : String) (next : Option String) :
    Occurrence :=
  if tok = "--" then .separator
  else if !startsWithDash tok then .unmatched
  else
    match flags[flagSearch (afterDash tok) flags]? with
    | none => .unmatched
    | some f =>
      match f.type, next with
      | .FLAG_TYPE_BOOL, _ => .plain (flagSearch (afterDash tok) flags) (.boolean true)
      | .FLAG_TYPE_U64, some v =>
        .valued (flagSearch (afterDash tok) flags) (.u64 (strtoull P v .zero).1)
      | .FLAG_TYPE_STRING, some v =>
        .valued (flagSearch (afterDash tok) flags) (.str (some v))
      | _, _ => .unmatched

/-- The matched occurrences of the flags `flags` among the arguments, read from
the left up to the first argument that is unmatched: each occurrence as the
slot of the flag and the value assigned. -/
def occurrences (P : Platform) (flags : List Flag) : List String → List (Nat × FlagKind)
  | [] => []
  | tok :: rest =>
    match occurrenceAt P flags tok rest.head? with
    | .separator => occurrences P flags rest
    | .plain j k => (j, k) :: occurrences P flags rest
    | .valued j k =>
      match rest with
      | [] => []
      | _ :: rest1 => (j, k) :: occurrences P flags rest1
    | .unmatched => []

/-- The value that the last occurrence of slot `j` assigns, if there is one. -/
def lastValue (j : Nat) : List (Nat × FlagKind) → Option FlagKind
  | [] => none
  | o :: os =>
    match lastValue j os with
    | some k => some k
    | none => if o.1 = j then some o.2 else none

/-! ## Lemmas -/

/-! ### The hash -/

theorem hashStep_lt (P : Platform) (h b : Nat) : hashStep P h b < 2 ^ 32 := by
  unfold hashStep
  exact Nat.mod_lt _ (by norm_num)

theorem foldl_hashStep_lt (P : Platform) (bs : List Nat) (h : Nat) (hh : h < 2 ^ 32) :
    bs.foldl (hashStep P) h < 2 ^ 32 := by
  induction bs generalizing h with
  | nil => simpa using hh
  | cons b bs ih => exact ih _ (hashStep_lt P h b)

theorem fold_low_bits (h : Nat) (hh : h < 2 ^ 32) :
    h ^^^ (((h >>> 10) <<< 10) % 2 ^ 32) = h % 2 ^ 10 := by
  have h1 : (h >>> 10) <<< 10 ≤ h := by
    rw [Nat.shiftRight_eq_div_pow, Nat.shiftLeft_eq]
    exact Nat.div_mul_le_self h (2 ^ 10)
  rw [Nat.mod_eq_of_lt (lt_of_le_of_lt h1 hh)]
  apply Nat.eq_of_testBit_eq
  intro i
  rw [Nat.testBit_xor, Nat.testBit_shiftLeft, Nat.testBit_shiftRight, Nat.testBit_mod_two_pow]
  by_cases hi : i < 10
  · simp [hi, Nat.not_le.mpr hi]
  · have : 10 ≤ i := Nat.le_of_not_lt hi
    simp [hi, this, Nat.add_sub_cancel' this]

/-- The returned value is the low ten bits of the hash. -/
theorem hashBytes_eq_mod (P : Platform) (bs : List Nat) :
    hashBytes P bs = bs.foldl (hashStep P) 0x811c9dc5 % 2 ^ 10 := by
  unfold hashBytes
  simp only []
  rw [fold_low_bits _ (foldl_hashStep_lt P _ _ (by norm_num))]

theorem drapeauHash_lt (P : Platform) (s : String) :
    drapeauHash P s < DRAPEAU_HASHMAP_CAPACITY := by
  unfold drapeauHash
  rw [hashBytes_eq_mod]
  exact Nat.mod_lt _ (by norm_num)

/-! ### The name index -/

theorem chainOf_ne_null (es : List (String × Nat)) : ∃ n w nx, chainOf es = .box n w nx := by
  cases es with
  | nil => exact ⟨_, _, _, rfl⟩
  | cons e es => exact ⟨_, _, _, rfl⟩

theorem fillLast_chainOf (name : String) (pos : Nat) (es : List (String × Nat)) :
    fillLast name pos (chainOf es) = chainOf (es ++ [(name, pos)]) := by
  induction es with
  | nil => rfl
  | cons e es ih =>
    obtain ⟨n, w, nx, h⟩ := chainOf_ne_null es
    obtain ⟨a, b⟩ := e
    show fillLast name pos (.box (.str a) b (chainOf es)) =
      .box (.str a) b (chainOf (es ++ [(name, pos)]))
    rw [← ih, h]
    simp [fillLast]

theorem findLoop_chainOf (name : String) (es : List (String × Nat)) :
    findLoop name (chainOf es) =
      match assocFind name es with
      | some w => .ok (some w)
      | none => .error .strcmpUninit := by
  induction es with
  | nil => rfl
  | cons e es ih =>
    obtain ⟨a, b⟩ := e
    simp only [chainOf, findLoop, assocFind]
    by_cases h : name = a
    · simp [h]
    · simp [h, ih]

theorem findLoop_bucketOf (name : String) (es : List (String × Nat)) :
    findLoop name (bucketOf es).ptr =
      match assocFind name es with
      | some w => .ok (some w)
      | none => .error (if es = [] then .strcmpNull else .strcmpUninit) := by
  cases es with
  | nil => rfl
  | cons e es =>
    obtain ⟨a, b⟩ := e
    simp only [bucketOf, HashBox.ptr, findLoop, assocFind]
    by_cases h : name = a
    · simp [h]
    · simp only [h, if_false, findLoop_chainOf]
      cases assocFind name es <;> simp

theorem bucketEntries_append (P : Platform) (h : Nat) (ns : List String) (n : String) (k : Nat) :
    bucketEntries P h (ns ++ [n]) k =
      bucketEntries P h ns k ++ (if drapeauHash P n = h then [(n, k + ns.length)] else []) := by
  induction ns generalizing k with
  | nil => by_cases e : drapeauHash P n = h <;> simp [bucketEntries, e]
  | cons m ns ih =>
    have : k + 1 + ns.length = k + (ns.length + 1) := by omega
    by_cases e : drapeauHash P m = h <;>
      simp [bucketEntries, ih (k + 1), List.length_cons, e, this]

theorem assocFind_bucketEntries_none (P : Platform) (h : Nat) (name : String) (ns : List String)
    (k : Nat) (hn : name ∉ ns) : assocFind name (bucketEntries P h ns k) = none := by
  induction ns generalizing k with
  | nil => rfl
  | cons m ns ih =>
    have h1 : name ≠ m := fun e => hn (e ▸ List.mem_cons_self _ _)
    have h2 : name ∉ ns := fun e => hn (List.mem_cons_of_mem _ e)
    by_cases e : drapeauHash P m = h <;> simp [bucketEntries, e, assocFind, h1, ih _ h2]

theorem assocFind_bucketEntries_some (P : Platform) (name : String) (ns : List String) (k i : Nat)
    (hi : ns[i]? = some name) (hfirst : ∀ j, j < i → ns[j]? ≠ some name) :
    assocFind name (bucketEntries P (drapeauHash P name) ns k) = some (k + i) := by
  induction ns generalizing k i with
  | nil => simp at hi
  | cons m ns ih =>
    cases i with
    | zero =>
      simp at hi
      subst hi
      simp [bucketEntries, assocFind]
    | succ i =>
      have h0 : name ≠ m := by
        intro e
        exact hfirst 0 (Nat.succ_pos _) (by simp [e])
      have hi1 : ns[i]? = some name := by simpa using hi
      have hf1 : ∀ j, j < i → ns[j]? ≠ some name := by
        intro j hj
        have := hfirst (j + 1) (Nat.succ_lt_succ hj)
        simpa using this
      have := ih (k + 1) i hi1 hf1
      have e2 : k + 1 + i = k + (i + 1) := by omega
      by_cases e : drapeauHash P m = drapeauHash P name <;>
        simp [bucketEntries, e, assocFind, h0, this, e2]

/-- In a state whose index agrees with the subcommand array, the lookup of a
name gives the first position that carries it. -/
theorem findSubcmdPosition_of_first (P : Platform) (st : State) (hI : IndexAgrees P st)
    (name : String) (i : Nat) (hi : (st.subcommands.map Subcmd.name)[i]? = some name)
    (hfirst : ∀ j, j < i → (st.subcommands.map Subcmd.name)[j]? ≠ some name) :
    findSubcmdPosition P st name = .ok (some i) := by
  unfold findSubcmdPosition
  simp only [drapeauHash_lt, if_true, hI (drapeauHash P name), findLoop_bucketOf]
  rw [assocFind_bucketEntries_some P name _ 0 i hi hfirst]
  simp

/-- In a state whose index agrees with the subcommand array, the lookup of a
name that no subcommand carries reaches `strcmp` on a null or indeterminate
pointer. -/
theorem findSubcmdPosition_of_not_mem (P : Platform) (st : State) (hI : IndexAgrees P st)
    (name : String) (hn : name ∉ st.subcommands.map Subcmd.name) :
    findSubcmdPosition P st name = .error .strcmpNull ∨
      findSubcmdPosition P st name = .error .strcmpUninit := by
  unfold findSubcmdPosition
  simp only [drapeauHash_lt, if_true, hI (drapeauHash P name), findLoop_bucketOf]
  rw [assocFind_bucketEntries_none P _ name _ 0 hn]
  simp only []
  split <;> simp

theorem indexAgrees_start (P : Platform) (name desc : String) :
    IndexAgrees P (drapeauStart name desc State.init) := by
  intro h
  rfl

theorem drapeauSubcmd_ok (P : Platform) (name desc : String) (st : State)
    (hlen : st.subcommands.length < SUBCOMMAND_CAPACITY) :
    ∃ st1, drapeauSubcmd P name desc st = .ok (st1, st.subcommands.length) ∧
      st1.subcommands = st.subcommands ++ [⟨name, desc, false, []⟩] ∧
      st1.main_flags = st.main_flags ∧ st1.drapeau_err = st.drapeau_err ∧
      st1.errno = st.errno ∧ st1.activated_subcmd = st.activated_subcmd ∧
      (IndexAgrees P st → IndexAgrees P st1) := by
  unfold drapeauSubcmd
  simp only [hlen, if_true, drapeauHash_lt]
  refine ⟨_, rfl, rfl, rfl, rfl, rfl, rfl, ?_⟩
  intro hI h
  simp only [List.map_append, List.map_cons, List.map_nil, bucketEntries_append, Nat.zero_add,
    List.length_map]
  by_cases e : h = drapeauHash P name
  · subst e
    simp only [if_true, hI (drapeauHash P name)]
    cases hb : bucketEntries P (drapeauHash P name) (st.subcommands.map Subcmd.name) 0 with
    | nil => rfl
    | cons a es =>
      obtain ⟨a1, a2⟩ := a
      obtain ⟨n, w, nx, hc⟩ := chainOf_ne_null es
      simp only [bucketOf, List.cons_append, hc]
      rw [← hc, fillLast_chainOf]
  · have e1 : ¬ drapeauHash P name = h := fun x => e x.symm
    simp [e, e1, hI h]

theorem declareSubcmds_ok (P : Platform) (subs : List (String × String)) (st : State)
    (hI : IndexAgrees P st) (hcap : st.subcommands.length + subs.length ≤ SUBCOMMAND_CAPACITY) :
    ∃ st1, declareSubcmds P subs st = .ok st1 ∧ IndexAgrees P st1 ∧
      st1.subcommands.map Subcmd.name = st.subcommands.map Subcmd.name ++ subs.map Prod.fst := by
  induction subs generalizing st with
  | nil => exact ⟨st, rfl, hI, by simp⟩
  | cons a subs ih =>
    obtain ⟨n, d⟩ := a
    have hlen : st.subcommands.length < SUBCOMMAND_CAPACITY := by
      simp only [List.length_cons] at hcap
      omega
    obtain ⟨st1, h1, hs, -, -, -, -, hI1⟩ := drapeauSubcmd_ok P n d st hlen
    have hcap1 : st1.subcommands.length + subs.length ≤ SUBCOMMAND_CAPACITY := by
      simp only [hs, List.length_append, List.length_cons, List.length_nil] at hcap ⊢
      omega
    obtain ⟨st2, h2, hI2, hn2⟩ := ih st1 (hI1 hI) hcap1
    refine ⟨st2, ?_, hI2, ?_⟩
    · simp only [declareSubcmds, h1, h2]
    · simp [hn2, hs]

theorem nodup_first {α : Type} (l : List α) (hnd : l.Nodup) (i : Nat) (x : α)
    (hi : l[i]? = some x) : ∀ j, j < i → l[j]? ≠ some x := by
  intro j hj e
  induction l generalizing i j with
  | nil => simp at hi
  | cons a l ih =>
    rw [List.nodup_cons] at hnd
    cases i with
    | zero => omega
    | succ i =>
      have hi1 : l[i]? = some x := by simpa using hi
      cases j with
      | zero =>
        have : a = x := by simpa using e
        subst this
        exact hnd.1 (List.getElem?_mem hi1)
      | succ j =>
        exact ih hnd.2 i hi1 j (by omega) (by simpa using e)

/-! ### Flag arrays -/

theorem length_modifyAt {α : Type} (f : α → α) (i : Nat) (l : List α) :
    (modifyAt f i l).length = l.length := by
  induction l generalizing i with
  | nil => cases i <;> rfl
  | cons a l ih => cases i <;> simp [modifyAt, ih]

theorem getElem?_modifyAt {α : Type} (f : α → α) (i k : Nat) (l : List α) :
    (modifyAt f i l)[k]? = if k = i then (l[k]?).map f else l[k]? := by
  induction l generalizing i k with
  | nil => cases i <;> simp [modifyAt]
  | cons a l ih =>
    cases i with
    | zero => cases k <;> simp [modifyAt]
    | succ i => cases k <;> simp [modifyAt, ih]

theorem modifyAt_length_append {α : Type} (f : α → α) (l : List α) (a : α) :
    modifyAt f l.length (l ++ [a]) = l ++ [f a] := by
  induction l with
  | nil => rfl
  | cons b l ih => simp [modifyAt, ih]

theorem modifyAt_modifyAt {α : Type} (f g : α → α) (i : Nat) (l : List α) :
    modifyAt g i (modifyAt f i l) = modifyAt (fun a => g (f a)) i l := by
  induction l generalizing i with
  | nil => cases i <;> rfl
  | cons a l ih => cases i <;> simp [modifyAt, ih]

theorem modifyAt_congr {α : Type} (f g : α → α) (i : Nat) (l : List α)
    (h : ∀ a, l[i]? = some a → f a = g a) : modifyAt f i l = modifyAt g i l := by
  induction l generalizing i with
  | nil => cases i <;> rfl
  | cons a l ih =>
    cases i with
    | zero => simp [modifyAt, h a (by simp)]
    | succ i =>
      simp only [modifyAt]
      rw [ih i (fun b hb => h b (by simpa using hb))]

theorem map_modifyAt {α β : Type} (f : α → α) (g : α → β) (i : Nat) (l : List α)
    (h : ∀ a, g (f a) = g a) : (modifyAt f i l).map g = l.map g := by
  induction l generalizing i with
  | nil => cases i <;> rfl
  | cons a l ih => cases i <;> simp [modifyAt, ih, h]

theorem flagSearch_le (name : String) (l : List Flag) : flagSearch name l ≤ l.length := by
  induction l with
  | nil => simp [flagSearch]
  | cons f l ih =>
    simp only [flagSearch, List.length_cons]
    split <;> omega

/-- The search stops at the first slot with the name. -/
theorem flagSearch_of_first (name : String) (l : List Flag) (j : Nat) (f : Flag)
    (hj : l[j]? = some f) (hname : f.name = name)
    (hfirst : ∀ k g, k < j → l[k]? = some g → g.name ≠ name) : flagSearch name l = j := by
  induction l generalizing j with
  | nil => simp at hj
  | cons a l ih =>
    cases j with
    | zero =>
      have : a = f := by simpa using hj
      simp [flagSearch, this, hname]
    | succ j =>
      have h0 : name ≠ a.name := fun e => hfirst 0 a (Nat.succ_pos _) (by simp) e.symm
      have := ih j (by simpa using hj)
        (fun k g hk hg => hfirst (k + 1) g (Nat.succ_lt_succ hk) (by simpa using hg))
      simp [flagSearch, h0, this]

/-- A search that ends inside the array ends at a slot with the name. -/
theorem flagSearch_name (name : String) (l : List Flag) (f : Flag)
    (h : l[flagSearch name l]? = some f) : f.name = name := by
  induction l with
  | nil => simp at h
  | cons a l ih =>
    by_cases e : name = a.name
    · simp [flagSearch, e] at h
      rw [← h, e]
    · simp [flagSearch, e] at h
      exact ih h

/-- The search ends behind the array when no slot has the name. -/
theorem flagSearch_none (name : String) (l : List Flag) (h : ∀ f ∈ l, f.name ≠ name) :
    l[flagSearch name l]? = none := by
  induction l with
  | nil => simp [flagSearch]
  | cons a l ih =>
    have h0 : name ≠ a.name := fun e => h a (List.mem_cons_self _ _) e.symm
    simpa [flagSearch, h0] using ih (fun f hf => h f (List.mem_cons_of_mem _ hf))

theorem flagSearch_congr (name : String) (l l1 : List Flag)
    (h : l1.map Flag.name = l.map Flag.name) : flagSearch name l1 = flagSearch name l := by
  induction l generalizing l1 with
  | nil =>
    cases l1 with
    | nil => rfl
    | cons b l1 => simp at h
  | cons a l ih =>
    cases l1 with
    | nil => simp at h
    | cons b l1 =>
      simp only [List.map_cons, List.cons.injEq] at h
      simp [flagSearch, h.1, ih l1 h.2]

theorem assocFind_bucketEntries_inv (P : Platform) (h : Nat) (name : String) (ns : List String)
    (k w : Nat) (hw : assocFind name (bucketEntries P h ns k) = some w) :
    ∃ i, w = k + i ∧ ns[i]? = some name := by
  induction ns generalizing k with
  | nil => simp [bucketEntries, assocFind] at hw
  | cons m ns ih =>
    by_cases e : drapeauHash P m = h
    · by_cases e1 : name = m
      · simp [bucketEntries, e, assocFind, e1] at hw
        exact ⟨0, by omega, by simp [e1]⟩
      · simp [bucketEntries, e, assocFind, e1] at hw
        obtain ⟨i, hi, hn⟩ := ih (k + 1) hw
        exact ⟨i + 1, by omega, by simpa using hn⟩
    · simp [bucketEntries, e] at hw
      obtain ⟨i, hi, hn⟩ := ih (k + 1) hw
      exact ⟨i + 1, by omega, by simpa using hn⟩

/-- In a state whose index agrees with the subcommand array, a lookup that
returns has found a declared position: it never returns `false`. -/
theorem findSubcmdPosition_inv (P : Platform) (st : State) (hI : IndexAgrees P st)
    (name : String) (o : Option Nat) (h : findSubcmdPosition P st name = .ok o) :
    ∃ i, o = some i ∧ (st.subcommands.map Subcmd.name)[i]? = some name := by
  unfold findSubcmdPosition at h
  simp only [drapeauHash_lt, if_true, hI (drapeauHash P name), findLoop_bucketOf] at h
  cases hw : assocFind name
      (bucketEntries P (drapeauHash P name) (st.subcommands.map Subcmd.name) 0) with
  | none => simp [hw] at h
  | some w =>
    simp only [hw, Except.ok.injEq] at h
    obtain ⟨i, hi, hn⟩ := assocFind_bucketEntries_inv P _ name _ 0 w hw
    exact ⟨i, by rw [← h, hi, Nat.zero_add], hn⟩

theorem flagsOf_sub_modifyAt (st : State) (g : Subcmd → Subcmd) (pos p : Nat) :
    flagsOf (some p) { st with subcommands := modifyAt g pos st.subcommands } =
      if p = pos then
        (match st.subcommands[p]? with
          | some sc => (g sc).flags
          | none => [])
      else flagsOf (some p) st := by
  simp only [flagsOf, getElem?_modifyAt]
  by_cases e : p = pos
  · simp only [e, if_true]
    cases st.subcommands[pos]? <;> rfl
  · simp [e]

theorem declareFlag_global (P : Platform) (n : String) (ty : FlagType) (k : FlagKind) (d : String)
    (st : State) (hlen : st.main_flags.length < FLAG_CAPACITY) :
    declareFlag P n ty k d none st =
      .ok (some ⟨none, st.main_flags.length⟩,
        { st with main_flags := st.main_flags ++ [⟨n, ty, k, k, d⟩] }) := by
  simp [declareFlag, drapeauGetFlag, hlen, writeFlag, modifyAt_length_append]

theorem declareFlag_sub (P : Platform) (n : String) (ty : FlagType) (k : FlagKind) (d : String)
    (st : State) (s : String) (pos : Nat) (sc : Subcmd)
    (hfind : findSubcmdPosition P st s = .ok (some pos)) (hsc : st.subcommands[pos]? = some sc)
    (hlen : sc.flags.length < FLAG_CAPACITY) :
    declareFlag P n ty k d (some s) st =
      .ok (some ⟨some pos, sc.flags.length⟩,
        { st with
          subcommands :=
            modifyAt (fun c => { c with flags := c.flags ++ [⟨n, ty, k, k, d⟩] }) pos
              st.subcommands }) := by
  simp only [declareFlag, drapeauGetFlag, hfind, hsc, hlen, if_true, writeFlag, modifyAt_modifyAt]
  congr 2
  congr 1
  apply modifyAt_congr
  intro a ha
  rw [hsc] at ha
  cases ha
  simp [modifyAt_length_append]

/-- What a flag declaration that returns has done, in a state whose index agrees
with the subcommand array. -/
theorem declareFlag_inv (P : Platform) (n : String) (ty : FlagType) (k : FlagKind) (d : String)
    (sub : Option String) (st st1 : State) (r : Option FlagRef) (hI : IndexAgrees P st)
    (h : declareFlag P n ty k d sub st = .ok (r, st1)) :
    st1.hash_map = st.hash_map ∧
      st1.subcommands.map Subcmd.name = st.subcommands.map Subcmd.name ∧
      st1.drapeau_err = st.drapeau_err ∧ st1.errno = st.errno ∧
      ∃ scope, r = some ⟨scope, (flagsOf scope st).length⟩ ∧
        (flagsOf scope st).length < FLAG_CAPACITY ∧
        flagsOf scope st1 = flagsOf scope st ++ [⟨n, ty, k, k, d⟩] ∧
        ∀ sc, sc ≠ scope → flagsOf sc st1 = flagsOf sc st := by
  cases sub with
  | none =>
    by_cases hlen : st.main_flags.length < FLAG_CAPACITY
    · rw [declareFlag_global P n ty k d st hlen] at h
      simp only [Except.ok.injEq, Prod.mk.injEq] at h
      obtain ⟨hr, hs⟩ := h
      subst hs
      refine ⟨rfl, rfl, rfl, rfl, none, hr.symm, hlen, rfl, ?_⟩
      intro sc hsc
      cases sc with
      | none => exact absurd rfl hsc
      | some p => rfl
    · simp [declareFlag, drapeauGetFlag, hlen] at h
  | some s =>
    cases hf : findSubcmdPosition P st s with
    | error e => simp [declareFlag, drapeauGetFlag, hf] at h
    | ok o =>
      obtain ⟨pos, ho, hn⟩ := findSubcmdPosition_inv P st hI s o hf
      subst ho
      have hpos : pos < st.subcommands.length := by
        have := (List.getElem?_eq_some.mp hn).1
        simpa using this
      have hsc : st.subcommands[pos]? = some st.subcommands[pos] := List.getElem?_eq_getElem hpos
      by_cases hlen : (st.subcommands[pos]).flags.length < FLAG_CAPACITY
      · rw [declareFlag_sub P n ty k d st s pos _ hf hsc hlen] at h
        simp only [Except.ok.injEq, Prod.mk.injEq] at h
        obtain ⟨hr, hs⟩ := h
        subst hs
        refine ⟨rfl, ?_, rfl, rfl, some pos, ?_, ?_, ?_, ?_⟩
        · exact map_modifyAt _ _ _ _ (fun _ => rfl)
        · rw [← hr]
          simp [flagsOf, hsc]
        · simpa [flagsOf, hsc] using hlen
        · rw [flagsOf_sub_modifyAt]
          simp [flagsOf, hsc]
        · intro sc hne
          cases sc with
          | none => rfl
          | some p =>
            rw [flagsOf_sub_modifyAt]
            have : p ≠ pos := fun e => hne (by rw [e])
            simp [this]
      · simp [declareFlag, drapeauGetFlag, hf, hsc, hlen] at h

theorem FlagDecl.run_eq (P : Platform) (sub : Option String) (d : FlagDecl) (st : State) :
    d.run P sub st =
      declareFlag P d.flag.name d.flag.type d.flag.kind d.flag.desc sub st ∧
      d.flag.dfault = d.flag.kind ∧ d.flag.name = d.name := by
  cases d <;> exact ⟨rfl, rfl, rfl⟩

/-- The invariants of a registry: the index agrees with the subcommand array, no
error is recorded, `errno` is zero, and every flag holds its default. -/
theorem registry_inv (P : Platform) (st : State) (hreg : Registry P st) :
    IndexAgrees P st ∧ st.drapeau_err = .DRAPEAU_ERR_KIND_OK ∧ st.errno = .zero ∧
      ∀ (scope : Option Nat) (j : Nat) (f : Flag),
        (flagsOf scope st)[j]? = some f → f.kind = f.dfault := by
  induction hreg with
  | start name desc =>
    refine ⟨indexAgrees_start P name desc, rfl, rfl, ?_⟩
    intro scope j f hf
    cases scope <;> simp [flagsOf, drapeauStart, State.init] at hf
  | @subcmd st st1 h name desc _ hs ih =>
    obtain ⟨hI, herr, herrno, hfresh⟩ := ih
    by_cases hlen : st.subcommands.length < SUBCOMMAND_CAPACITY
    · obtain ⟨st2, h2, hsub, hmain, he, hen, -, hI2⟩ := drapeauSubcmd_ok P name desc st hlen
      rw [h2] at hs
      simp only [Except.ok.injEq, Prod.mk.injEq] at hs
      obtain ⟨hs, -⟩ := hs
      subst hs
      refine ⟨hI2 hI, he.trans herr, hen.trans herrno, ?_⟩
      intro scope j f hf
      cases scope with
      | none =>
        simp only [flagsOf, hmain] at hf
        exact hfresh none j f hf
      | some p =>
        simp only [flagsOf, hsub, List.getElem?_append] at hf
        by_cases hp : p < st.subcommands.length
        · simp only [hp, if_true] at hf
          exact hfresh (some p) j f hf
        · simp only [hp, if_false] at hf
          cases hq : [(⟨name, desc, false, []⟩ : Subcmd)][p - st.subcommands.length]? with
          | none => simp [hq] at hf
          | some c =>
            have : c = ⟨name, desc, false, []⟩ := by
              have := List.getElem?_mem hq
              simpa using this
            subst this
            simp [hq] at hf
    · simp [drapeauSubcmd, hlen] at hs
  | @flag st st1 r d sub _ hs ih =>
    obtain ⟨hI, herr, herrno, hfresh⟩ := ih
    obtain ⟨hrun, -, -⟩ := FlagDecl.run_eq P sub d st
    rw [hrun] at hs
    obtain ⟨hmap, hnames, he, hen, scope, -, -, hfl, hother⟩ :=
      declareFlag_inv P _ _ _ _ sub st st1 r hI hs
    refine ⟨?_, he.trans herr, hen.trans herrno, ?_⟩
    · intro h
      rw [hmap, hnames]
      exact hI h
    · intro sc j f hf
      by_cases e : sc = scope
      · subst e
        rw [hfl, List.getElem?_append] at hf
        by_cases hj : j < (flagsOf sc st).length
        · simp only [hj, if_true] at hf
          exact hfresh sc j f hf
        · simp only [hj, if_false] at hf
          have := List.getElem?_mem hf
          simp only [List.mem_singleton] at this
          subst this
          rfl
      · rw [hother sc e] at hf
        exact hfresh sc j f hf

theorem findSubcmdPosition_congr (P : Platform) (st st1 : State) (h : st1.hash_map = st.hash_map)
    (name : String) : findSubcmdPosition P st1 name = findSubcmdPosition P st name := by
  simp [findSubcmdPosition, h]

theorem flagDecl_eta (d : FlagDecl) :
    (⟨d.flag.name, d.flag.type, d.flag.kind, d.flag.kind, d.flag.desc⟩ : Flag) = d.flag := by
  cases d <;> rfl

/-- One declaration in a scope that resolves and has room: the handle is the
next slot of the scope, and the slot holds the declared record. -/
theorem FlagDecl.run_at (P : Platform) (sub : Option String) (scope : Option Nat) (d : FlagDecl)
    (st : State)
    (hres : (sub = none ∧ scope = none) ∨
      ∃ s pos, sub = some s ∧ scope = some pos ∧
        findSubcmdPosition P st s = .ok (some pos) ∧ pos < st.subcommands.length)
    (hlen : (flagsOf scope st).length < FLAG_CAPACITY) :
    ∃ st1, d.run P sub st = .ok (some ⟨scope, (flagsOf scope st).length⟩, st1) ∧
      st1.hash_map = st.hash_map ∧ st1.subcommands.length = st.subcommands.length ∧
      flagsOf scope st1 = flagsOf scope st ++ [d.flag] := by
  rw [(FlagDecl.run_eq P sub d st).1]
  rcases hres with ⟨h1, h2⟩ | ⟨s, pos, h1, h2, hf, hpos⟩
  · subst h1 h2
    rw [declareFlag_global P _ _ _ _ st hlen]
    exact ⟨_, rfl, rfl, rfl, by simp [flagsOf, flagDecl_eta]⟩
  · subst h1 h2
    have hsc : st.subcommands[pos]? = some st.subcommands[pos] := List.getElem?_eq_getElem hpos
    have hfl : flagsOf (some pos) st = (st.subcommands[pos]).flags := by simp [flagsOf, hsc]
    rw [hfl] at hlen ⊢
    rw [declareFlag_sub P _ _ _ _ st s pos _ hf hsc hlen]
    refine ⟨_, rfl, rfl, ?_, ?_⟩
    · simp [length_modifyAt]
    · rw [flagsOf_sub_modifyAt]
      simp [hsc, flagDecl_eta]

theorem declareFlags_spec (P : Platform) (sub : Option String) (scope : Option Nat)
    (decls : List FlagDecl) (st : State)
    (hres : (sub = none ∧ scope = none) ∨
      ∃ s pos, sub = some s ∧ scope = some pos ∧
        findSubcmdPosition P st s = .ok (some pos) ∧ pos < st.subcommands.length)
    (hcap : (flagsOf scope st).length + decls.length ≤ FLAG_CAPACITY) :
    ∃ handles st1, declareFlags P sub decls st = .ok (handles, st1) ∧
      flagsOf scope st1 = flagsOf scope st ++ decls.map FlagDecl.flag ∧
      ∀ i d, decls[i]? = some d →
        handles[i]? = some (some (FlagRef.mk scope ((flagsOf scope st).length + i))) := by
  induction decls generalizing st with
  | nil => exact ⟨[], st, rfl, by simp, by simp⟩
  | cons d ds ih =>
    have hlen : (flagsOf scope st).length < FLAG_CAPACITY := by
      simp only [List.length_cons] at hcap
      omega
    obtain ⟨st1, h1, hmap, hsl, hfl⟩ := FlagDecl.run_at P sub scope d st hres hlen
    have hres1 : (sub = none ∧ scope = none) ∨
        ∃ s pos, sub = some s ∧ scope = some pos ∧
          findSubcmdPosition P st1 s = .ok (some pos) ∧ pos < st1.subcommands.length := by
      rcases hres with h | ⟨s, pos, h1, h2, hf, hpos⟩
      · exact Or.inl h
      · exact Or.inr ⟨s, pos, h1, h2, by rw [findSubcmdPosition_congr P st st1 hmap, hf],
          by rw [hsl]; exact hpos⟩
    have hcap1 : (flagsOf scope st1).length + ds.length ≤ FLAG_CAPACITY := by
      simp only [hfl, List.length_append, List.length_cons, List.length_nil] at hcap ⊢
      omega
    obtain ⟨hs, st2, h2, hfl2, hh⟩ := ih st1 hres1 hcap1
    refine ⟨some ⟨scope, (flagsOf scope st).length⟩ :: hs, st2, ?_, ?_, ?_⟩
    · simp only [declareFlags, h1, h2]
    · simp [hfl2, hfl]
    · intro i e he
      cases i with
      | zero => simp
      | succ i =>
        have := hh i e (by simpa using he)
        simp only [List.getElem?_cons_succ, this, hfl, List.length_append, List.length_cons,
          List.length_nil]
        congr 3
        omega

/-! ### Tokens -/

theorem startsWithDash_dash_append (F : String) : startsWithDash ("-" ++ F) = true := by
  simp [startsWithDash, String.data_append]

theorem afterDash_dash_append (F : String) : afterDash ("-" ++ F) = F := by
  simp [afterDash, String.data_append]

theorem dash_append_ne_sep (F : String) (h : F ≠ "-") : "-" ++ F ≠ "--" := by
  intro e
  apply h
  have := congrArg afterDash e
  rw [afterDash_dash_append] at this
  rw [this]
  rfl

theorem eq_dash_append_of_startsWithDash (tok : String) (h : startsWithDash tok = true) :
    tok = "-" ++ afterDash tok := by
  obtain ⟨cs⟩ := tok
  cases cs with
  | nil => simp [startsWithDash] at h
  | cons c cs =>
    simp [startsWithDash] at h
    subst h
    apply String.ext
    simp [afterDash, String.data_append]


/-! ### Writing a flag -/

theorem flagsOf_writeFlag (scope sc : Option Nat) (j : Nat) (g : Flag → Flag) (st : State) :
    flagsOf sc (writeFlag ⟨scope, j⟩ g st) =
      if sc = scope then modifyAt g j (flagsOf sc st) else flagsOf sc st := by
  cases scope with
  | none =>
    cases sc with
    | none => simp [writeFlag, flagsOf]
    | some p => simp [writeFlag, flagsOf]
  | some pos =>
    cases sc with
    | none => simp [writeFlag, flagsOf]
    | some p =>
      simp only [writeFlag, flagsOf_sub_modifyAt, Option.some.injEq]
      by_cases e : p = pos
      · simp only [e, if_true, flagsOf]
        cases st.subcommands[pos]? <;> simp [modifyAt]
      · simp [e]

theorem flagsOf_congr (sc : Option Nat) (st st1 : State) (h1 : st1.main_flags = st.main_flags)
    (h2 : st1.subcommands = st.subcommands) : flagsOf sc st1 = flagsOf sc st := by
  cases sc <;> simp [flagsOf, h1, h2]

theorem writeFlag_fields (r : FlagRef) (g : Flag → Flag) (st : State) :
    (writeFlag r g st).drapeau_err = st.drapeau_err ∧ (writeFlag r g st).errno = st.errno ∧
      (writeFlag r g st).hash_map = st.hash_map ∧
      (writeFlag r g st).activated_subcmd = st.activated_subcmd := by
  obtain ⟨scope, j⟩ := r
  cases scope <;> exact ⟨rfl, rfl, rfl, rfl⟩

/-- Writing the value of slot `j` of `scope`, whose name with a leading `-` is
the token, keeps every other value. -/
theorem keeps_writeFlag (scope : Option Nat) (j : Nat) (k : FlagKind) (st : State) (tok : String)
    (htok : ∀ f, (flagsOf scope st)[j]? = some f → tok = "-" ++ f.name) :
    Keeps [tok] st (writeFlag ⟨scope, j⟩ (fun f => { f with kind := k }) st) := by
  intro sc i f hf
  rw [flagsOf_writeFlag, ]
  by_cases e : sc = scope
  · subst e
    simp only [if_true, getElem?_modifyAt]
    by_cases ei : i = j
    · subst ei
      simp only [if_true, hf, Option.map_some']
      refine ⟨_, rfl, rfl, rfl, rfl, ?_⟩
      intro hn
      exact absurd (htok f hf) (fun h => hn (by simp [h]))
    · simp only [ei, if_false]
      exact ⟨f, hf, rfl, rfl, rfl, fun _ => rfl⟩
  · simp only [e, if_false]
    exact ⟨f, hf, rfl, rfl, rfl, fun _ => rfl⟩

theorem keeps_of_flagsOf_eq (toks : List String) (st st1 : State)
    (h : ∀ sc, flagsOf sc st1 = flagsOf sc st) : Keeps toks st st1 := by
  intro sc j f hf
  rw [h sc]
  exact ⟨f, hf, rfl, rfl, rfl, fun _ => rfl⟩

theorem keeps_trans (t1 t2 t : List String) (a b c : State) (h1 : Keeps t1 a b)
    (h2 : Keeps t2 b c) (ht1 : ∀ x ∈ t1, x ∈ t) (ht2 : ∀ x ∈ t2, x ∈ t) : Keeps t a c := by
  intro sc j f hf
  obtain ⟨f1, hf1, hn1, hty1, hd1, hk1⟩ := h1 sc j f hf
  obtain ⟨f2, hf2, hn2, hty2, hd2, hk2⟩ := h2 sc j f1 hf1
  refine ⟨f2, hf2, hn2.trans hn1, hty2.trans hty1, hd2.trans hd1, ?_⟩
  intro hn
  rw [hk2 (fun h => hn (ht2 _ (by rw [← hn1]; exact h))), hk1 (fun h => hn (ht1 _ h))]

/-! ### One round of the loop -/

/-- A round in which the token names a boolean flag. -/
theorem parseToken_bool (P : Platform) (scope : Option Nat) (tok : String) (rest : List String)
    (st : State) (f : Flag) (hsep : tok ≠ "--") (hdash : startsWithDash tok = true)
    (hf : (flagsOf scope st)[flagSearch (afterDash tok) (flagsOf scope st)]? = some f)
    (hty : f.type = .FLAG_TYPE_BOOL) :
    parseToken P scope tok rest st =
      .ok (.next (writeFlag ⟨scope, flagSearch (afterDash tok) (flagsOf scope st)⟩
        (fun f => { f with kind := .boolean true }) st)) := by
  simp [parseToken, hsep, hdash, hf, hty]

/-- A round in which the token names an integer flag and a value follows. -/
theorem parseToken_u64 (P : Platform) (scope : Option Nat) (tok v : String) (rest : List String)
    (st : State) (f : Flag) (hsep : tok ≠ "--") (hdash : startsWithDash tok = true)
    (hf : (flagsOf scope st)[flagSearch (afterDash tok) (flagsOf scope st)]? = some f)
    (hty : f.type = .FLAG_TYPE_U64) :
    parseToken P scope tok (v :: rest) st =
      if (strtoull P v st.errno).2 = .EINVAL ∨ (strtoull P v st.errno).2 = .ERANGE then
        .ok (.ret
          { writeFlag ⟨scope, flagSearch (afterDash tok) (flagsOf scope st)⟩
              (fun f => { f with kind := .u64 (strtoull P v st.errno).1 })
              { st with errno := (strtoull P v st.errno).2 } with
            drapeau_err := .DRAPEAU_ERR_KIND_INAVLID_NUMBER })
      else
        .ok (.next2
          (writeFlag ⟨scope, flagSearch (afterDash tok) (flagsOf scope st)⟩
            (fun f => { f with kind := .u64 (strtoull P v st.errno).1 })
            { st with errno := (strtoull P v st.errno).2 })) := by
  simp [parseToken, hsep, hdash, hf, hty]

/-- Every round that returns keeps the flags that its token does not name. -/
theorem parseToken_keeps (P : Platform) (scope : Option Nat) (tok : String) (rest : List String)
    (st : State) (s : Step) (h : parseToken P scope tok rest st = .ok s) :
    Keeps [tok] st s.state := by
  unfold parseToken at h
  by_cases hsep : tok = "--"
  · simp only [hsep, if_true, Except.ok.injEq] at h
    subst h
    exact keeps_of_flagsOf_eq _ _ _ (fun _ => rfl)
  · simp only [hsep, if_false] at h
    by_cases hdash : startsWithDash tok = true
    · simp only [hdash, Bool.not_true, Bool.false_eq_true, if_false] at h
      have htok : ∀ f, (flagsOf scope st)[flagSearch (afterDash tok) (flagsOf scope st)]? = some f →
          tok = "-" ++ f.name := by
        intro f hf
        rw [flagSearch_name _ _ f hf]
        exact eq_dash_append_of_startsWithDash tok hdash
      cases hf : (flagsOf scope st)[flagSearch (afterDash tok) (flagsOf scope st)]? with
      | none =>
        simp only [hf, Except.ok.injEq] at h
        subst h
        exact keeps_of_flagsOf_eq _ _ _ (fun sc => flagsOf_congr sc _ _ rfl rfl)
      | some f =>
        simp only [hf] at h
        cases hty : f.type with
        | FLAG_TYPE_NIL => simp [hty] at h
        | FLAG_TYPE_BOOL =>
          simp only [hty, Except.ok.injEq] at h
          subst h
          exact keeps_writeFlag scope _ _ st tok htok
        | FLAG_TYPE_U64 =>
          simp only [hty] at h
          cases rest with
          | nil => simp at h
          | cons v rest =>
            simp only [] at h
            have hk := keeps_writeFlag scope (flagSearch (afterDash tok) (flagsOf scope st))
              (.u64 (strtoull P v st.errno).1) { st with errno := (strtoull P v st.errno).2 } tok
              htok
            split at h
            · simp only [Except.ok.injEq] at h
              subst h
              intro sc j g hg
              obtain ⟨f1, h1, h2⟩ := hk sc j g hg
              exact ⟨f1, h1, h2⟩
            · simp only [Except.ok.injEq] at h
              subst h
              exact hk
        | FLAG_TYPE_STRING =>
          simp only [hty] at h
          cases rest with
          | nil => simp at h
          | cons v rest =>
            simp only [Except.ok.injEq] at h
            subst h
            exact keeps_writeFlag scope _ _ st tok htok
    · simp only [hdash, Bool.not_false, if_true, Except.ok.injEq] at h
      subst h
      exact keeps_of_flagsOf_eq _ _ _ (fun sc => flagsOf_congr sc _ _ rfl rfl)


theorem keeps_mono (t1 t : List String) (a b : State) (h : Keeps t1 a b)
    (ht : ∀ x ∈ t1, x ∈ t) : Keeps t a b := by
  intro sc j f hf
  obtain ⟨f1, hf1, hn, hty, hd, hk⟩ := h sc j f hf
  exact ⟨f1, hf1, hn, hty, hd, fun hx => hk (fun h1 => hx (ht _ h1))⟩

/-! ### The loop and `drapeauParse` -/

theorem parseLoop_cons (P : Platform) (scope : Option Nat) (tok : String) (rest : List String)
    (st : State) :
    parseLoop P scope (tok :: rest) st =
      match parseToken P scope tok rest st with
      | .error e => .error e
      | .ok (.ret st1) => .ok st1
      | .ok (.next st1) => parseLoop P scope rest st1
      | .ok (.next2 st1) =>
        match rest with
        | [] => .error .argvOverrun
        | _ :: rest1 => parseLoop P scope rest1 st1 := by
  rw [parseLoop]

theorem parseLoop_keeps (P : Platform) (scope : Option Nat) (n : Nat) (toks : List String)
    (st st1 : State) (hn : toks.length ≤ n) (h : parseLoop P scope toks st = .ok st1) :
    Keeps toks st st1 := by
  induction n generalizing toks st with
  | zero =>
    cases toks with
    | nil =>
      simp only [parseLoop, Except.ok.injEq] at h
      subst h
      exact keeps_of_flagsOf_eq _ _ _ (fun _ => rfl)
    | cons t ts => simp at hn
  | succ n ih =>
    cases toks with
    | nil =>
      simp only [parseLoop, Except.ok.injEq] at h
      subst h
      exact keeps_of_flagsOf_eq _ _ _ (fun _ => rfl)
    | cons tok rest =>
      rw [parseLoop_cons] at h
      have hlen : rest.length ≤ n := by
        simp only [List.length_cons] at hn
        omega
      cases hpt : parseToken P scope tok rest st with
      | error e => simp [hpt] at h
      | ok s =>
        have hk := parseToken_keeps P scope tok rest st s hpt
        cases s with
        | ret s1 =>
          simp only [hpt, Except.ok.injEq] at h
          subst h
          exact keeps_mono _ _ _ _ hk (by simp)
        | next s1 =>
          simp only [hpt] at h
          exact keeps_trans _ _ _ _ _ _ hk (ih rest s1 hlen h) (by simp)
            (fun x hx => List.mem_cons_of_mem _ hx)
        | next2 s1 =>
          simp only [hpt] at h
          cases rest with
          | nil => simp at h
          | cons v rest1 =>
            simp only [] at h
            have hlen1 : rest1.length ≤ n := by
              simp only [List.length_cons] at hlen
              omega
            exact keeps_trans _ _ _ _ _ _ hk (ih rest1 s1 hlen1 h) (by simp)
              (fun x hx => List.mem_cons_of_mem _ (List.mem_cons_of_mem _ hx))

/-- Marking a subcommand as activated changes no flag array. -/
theorem flagsOf_activate (st : State) (pos : Nat) (sc : Option Nat) :
    flagsOf sc
        { st with
          activated_subcmd := some pos
          subcommands := modifyAt (fun c => { c with is_activate := true }) pos st.subcommands } =
      flagsOf sc st := by
  cases sc with
  | none => rfl
  | some p =>
    show (match (modifyAt (fun c : Subcmd => { c with is_activate := true }) pos
        st.subcommands)[p]? with
      | some c => c.flags
      | none => []) = (match st.subcommands[p]? with
      | some c => c.flags
      | none => [])
    rw [getElem?_modifyAt]
    by_cases e : p = pos
    · subst e
      rw [if_pos rfl]
      cases st.subcommands[p]? <;> rfl
    · rw [if_neg e]

/-- Every call of `drapeauParse` that returns keeps the flags that no token of
the command line names. -/
theorem drapeauParse_keeps (P : Platform) (argv : List String) (st st1 : State)
    (h : drapeauParse P argv st = .ok st1) : Keeps argv st st1 := by
  unfold drapeauParse at h
  match argv, h with
  | [], h =>
    simp only [Except.ok.injEq] at h
    subst h
    exact keeps_of_flagsOf_eq _ _ _ (fun _ => rfl)
  | [_], h =>
    simp only [Except.ok.injEq] at h
    subst h
    exact keeps_of_flagsOf_eq _ _ _ (fun _ => rfl)
  | prog :: first :: rest, h =>
    simp only [] at h
    by_cases hdash : startsWithDash first = true
    · simp only [hdash, Bool.not_true, Bool.false_eq_true, if_false] at h
      exact keeps_mono _ _ _ _ (parseLoop_keeps P none _ _ st st1 (le_refl _) h)
        (fun x hx => List.mem_cons_of_mem _ hx)
    · simp only [hdash, Bool.not_false, if_true] at h
      cases hf : findSubcmdPosition P st first with
      | error e => simp [hf] at h
      | ok o =>
        cases o with
        | none =>
          simp only [hf, Except.ok.injEq] at h
          subst h
          exact keeps_of_flagsOf_eq _ _ _ (fun sc => flagsOf_congr sc _ _ rfl rfl)
        | some pos =>
          simp only [hf] at h
          by_cases hpos : pos < st.subcommands.length
          · simp only [hpos, if_true] at h
            have hk := parseLoop_keeps P (some pos) _ _ _ st1 (le_refl _) h
            have h0 : Keeps [] st
                { st with
                  activated_subcmd := some pos
                  subcommands :=
                    modifyAt (fun sc => { sc with is_activate := true }) pos st.subcommands } :=
              keeps_of_flagsOf_eq _ _ _ (fun sc => flagsOf_activate st pos sc)
            exact keeps_trans _ _ _ _ _ _ h0 hk (by simp)
              (fun x hx => List.mem_cons_of_mem _ (List.mem_cons_of_mem _ hx))
          · simp [hpos] at h

/-! ### `strtoull` on numerals -/

theorem digitVal_some (c : Char) (d : Nat) (h : digitVal c = some d) :
    isspace c = false ∧ c.toNat ≠ 45 ∧ c.toNat ≠ 43 ∧ (d < 10 → c.toNat = 48 + d) := by
  unfold digitVal at h
  simp only [] at h
  unfold isspace
  split at h
  · simp only [Option.some.injEq] at h
    refine ⟨?_, by omega, by omega, fun _ => by omega⟩
    simp only [Bool.or_eq_false_iff, beq_eq_false_iff_ne, ne_eq, Bool.and_eq_false_imp,
      decide_eq_true_eq, decide_eq_false_iff_not]
    omega
  · split at h
    · simp only [Option.some.injEq] at h
      refine ⟨?_, by omega, by omega, fun _ => by omega⟩
      simp only [Bool.or_eq_false_iff, beq_eq_false_iff_ne, ne_eq, Bool.and_eq_false_imp,
        decide_eq_true_eq, decide_eq_false_iff_not]
      omega
    · split at h
      · simp only [Option.some.injEq] at h
        refine ⟨?_, by omega, by omega, fun _ => by omega⟩
        simp only [Bool.or_eq_false_iff, beq_eq_false_iff_ne, ne_eq, Bool.and_eq_false_imp,
          decide_eq_true_eq, decide_eq_false_iff_not]
        omega
      · simp at h

theorem digitVal_zero (z : Char) (h : z.toNat = 48) : digitVal z = some 0 := by
  simp [digitVal, h]

theorem numVal_head (base : Nat) (c : Char) (cs : List Char) (acc v : Nat)
    (h : numVal base (c :: cs) acc = some v) :
    ∃ d, digitVal c = some d ∧ d < base ∧ numVal base cs (acc * base + d) = some v := by
  unfold numVal at h
  cases hd : digitVal c with
  | none => simp [hd] at h
  | some d =>
    simp only [hd] at h
    by_cases hb : d < base
    · simp only [hb, if_true] at h
      exact ⟨d, rfl, hb, h⟩
    · simp [hb] at h

theorem scanDigits_of_numVal (base : Nat) (cs : List Char) (acc v : Nat)
    (h : numVal base cs acc = some v) : scanDigits base cs (some acc) = some v := by
  induction cs generalizing acc with
  | nil => simpa [numVal, scanDigits] using h
  | cons c cs ih =>
    obtain ⟨d, hd, hb, hr⟩ := numVal_head base c cs acc v h
    simp only [scanDigits, hd, hb, if_true, Option.getD_some]
    exact ih _ hr

theorem scanDigits_start (base : Nat) (c : Char) (cs : List Char) (v : Nat)
    (h : numVal base (c :: cs) 0 = some v) : scanDigits base (c :: cs) none = some v := by
  obtain ⟨d, hd, hb, hr⟩ := numVal_head base c cs 0 v h
  simp only [scanDigits, hd, hb, if_true, Option.getD_none]
  exact scanDigits_of_numVal base cs _ v hr

/-- On a numeral of a value below `2 ^ 64`, `strtoull` returns the value and
leaves `errno` alone. -/
theorem strtoull_numeral (P : Platform) (tok : String) (v : Nat) (errno : Errno)
    (h : IsNumeral tok v) (hv : v < 2 ^ 64) : strtoull P tok errno = (v, errno) := by
  have hmax : ¬ ULLONG_MAX < v := by
    unfold ULLONG_MAX
    omega
  rcases h with ⟨c, cs, hdata, hc, hnum⟩ | ⟨z, x, d, ds, hdata, hz, hx, hnum⟩ |
      ⟨z, ds, hdata, hz, hnum⟩
  · obtain ⟨d, hd, -, -⟩ := numVal_head 10 c cs 0 v hnum
    obtain ⟨hsp, hm, hp, -⟩ := digitVal_some c d hd
    simp [strtoull, hdata, List.dropWhile, hsp, takeSign, hm, hp, takeBase, hc,
      scanDigits_start 10 c cs v hnum, hmax]
  · obtain ⟨hsp, hm, hp, -⟩ := digitVal_some z 0 (digitVal_zero z hz)
    obtain ⟨dd, hd, hb, -⟩ := numVal_head 16 d ds 0 v hnum
    have hdig : isDigitOf 16 d = true := by simp [isDigitOf, hd, hb]
    simp [strtoull, hdata, List.dropWhile, hsp, takeSign, hm, hp, takeBase, hz, hx, hdig,
      scanDigits_start 16 d ds v hnum, hmax]
  · obtain ⟨hsp, hm, hp, -⟩ := digitVal_some z 0 (digitVal_zero z hz)
    have hscan : scanDigits 8 (z :: ds) none = some v := by
      simp only [scanDigits, digitVal_zero z hz, Option.getD_none]
      simpa using scanDigits_of_numVal 8 ds 0 v hnum
    have hbase : takeBase (z :: ds) = (8, z :: ds) := by
      unfold takeBase
      simp only [hz, if_true]
      match ds, hnum with
      | [], _ => rfl
      | [_], _ => rfl
      | x :: d :: r1, hnum =>
        obtain ⟨dx, hdx, hbx, -⟩ := numVal_head 8 x (d :: r1) 0 v hnum
        obtain ⟨-, -, -, hcode⟩ := digitVal_some x dx hdx
        have := hcode (by omega)
        have h1 : ¬ (x.toNat = 120 ∨ x.toNat = 88) := by omega
        simp [h1]
    simp [strtoull, hdata, List.dropWhile, hsp, takeSign, hm, hp, hbase, hscan, hmax]

/-- The search ends behind the array exactly when no slot has the name. -/
theorem flagSearch_none_iff (name : String) (l : List Flag) :
    l[flagSearch name l]? = none ↔ ∀ f ∈ l, f.name ≠ name := by
  constructor
  · intro h f hf e
    induction l with
    | nil => simp at hf
    | cons a l ih =>
      by_cases ea : name = a.name
      · simp [flagSearch, ea] at h
      · simp only [flagSearch, ea, if_false, List.getElem?_cons_succ] at h
        rcases List.mem_cons.mp hf with rfl | hf1
        · exact ea e.symm
        · exact ih h hf1
  · exact flagSearch_none name l

theorem flagsOf_err (sc : Option Nat) (st : State) (e : DrapeauErrKind) :
    flagsOf sc { st with drapeau_err := e } = flagsOf sc st := by
  cases sc <;> rfl

theorem flagsOf_errno (sc : Option Nat) (st : State) (e : Errno) :
    flagsOf sc { st with errno := e } = flagsOf sc st := by
  cases sc <;> rfl

/-! ### Facts around the claims -/

/-- On a numeral, `strtoull` returns the value, or `ULLONG_MAX` with
`errno = ERANGE` when the value is above `ULLONG_MAX`. -/
theorem strtoull_numeral_range (P : Platform) (tok : String) (v : Nat) (errno : Errno)
    (h : IsNumeral tok v) :
    strtoull P tok errno = if ULLONG_MAX < v then (ULLONG_MAX, .ERANGE) else (v, errno) := by
  by_cases hv : v < 2 ^ 64
  · have hmax : ¬ ULLONG_MAX < v := by
      unfold ULLONG_MAX
      omega
    rw [if_neg hmax]
    exact strtoull_numeral P tok v errno h hv
  · have hmax : ULLONG_MAX < v := by
      unfold ULLONG_MAX
      omega
    rw [if_pos hmax]
    rcases h with ⟨c, cs, hdata, hc, hnum⟩ | ⟨z, x, d, ds, hdata, hz, hx, hnum⟩ |
        ⟨z, ds, hdata, hz, hnum⟩
    · obtain ⟨d, hd, -, -⟩ := numVal_head 10 c cs 0 v hnum
      obtain ⟨hsp, hm, hp, -⟩ := digitVal_some c d hd
      simp [strtoull, hdata, List.dropWhile, hsp, takeSign, hm, hp, takeBase, hc,
        scanDigits_start 10 c cs v hnum, hmax]
    · obtain ⟨hsp, hm, hp, -⟩ := digitVal_some z 0 (digitVal_zero z hz)
      obtain ⟨dd, hd, hb, -⟩ := numVal_head 16 d ds 0 v hnum
      have hdig : isDigitOf 16 d = true := by simp [isDigitOf, hd, hb]
      simp [strtoull, hdata, List.dropWhile, hsp, takeSign, hm, hp, takeBase, hz, hx, hdig,
        scanDigits_start 16 d ds v hnum, hmax]
    · obtain ⟨hsp, hm, hp, -⟩ := digitVal_some z 0 (digitVal_zero z hz)
      have hscan : scanDigits 8 (z :: ds) none = some v := by
        simp only [scanDigits, digitVal_zero z hz, Option.getD_none]
        simpa using scanDigits_of_numVal 8 ds 0 v hnum
      have hbase : takeBase (z :: ds) = (8, z :: ds) := by
        unfold takeBase
        simp only [hz, if_true]
        match ds, hnum with
        | [], _ => rfl
        | [_], _ => rfl
        | x :: d :: r1, hnum =>
          obtain ⟨dx, hdx, hbx, -⟩ := numVal_head 8 x (d :: r1) 0 v hnum
          obtain ⟨-, -, -, hcode⟩ := digitVal_some x dx hdx
          have := hcode (by omega)
          have h1 : ¬ (x.toNat = 120 ∨ x.toNat = 88) := by omega
          simp [h1]
      simp [strtoull, hdata, List.dropWhile, hsp, takeSign, hm, hp, hbase, hscan, hmax]

/-- A numeral of a value above `ULLONG_MAX` behind an integer flag is reported
as an invalid number on every platform, and the flag holds `ULLONG_MAX`. -/
theorem drapeauParse_overflow_reported (P : Platform) (st : State) (prog : String) (j : Nat) (f : Flag) (hF : st.main_flags[j]? = some f)
    (hname : f.name = "n") (hty : f.type = .FLAG_TYPE_U64)
    (huniq : ∀ k g, st.main_flags[k]? = some g → g.name = "n" → k = j)
    (tok : String) (v : Nat) (hnum : IsNumeral tok v) (hv : 2 ^ 64 ≤ v) :
    ∃ st1 f1, drapeauParse P [prog, "-n", tok] st = .ok st1 ∧
      st1.main_flags[j]? = some f1 ∧ f1.kind = .u64 ULLONG_MAX ∧
      st1.drapeau_err = .DRAPEAU_ERR_KIND_INAVLID_NUMBER := by
  have hmax : ULLONG_MAX < v := by
    unfold ULLONG_MAX
    omega
  have hj : flagSearch (afterDash "-n") (flagsOf none st) = j := by
    apply flagSearch_of_first "n" st.main_flags j f hF hname
    intro k g hk hg e
    have := huniq k g hg e
    omega
  have htok := parseToken_u64 P none "-n" tok [] st f (by decide) (by decide)
    (by rw [hj]; exact hF) hty
  rw [strtoull_numeral_range P tok v st.errno hnum, if_pos hmax, hj] at htok
  refine ⟨{ writeFlag ⟨none, j⟩ (fun f => { f with kind := .u64 ULLONG_MAX })
        { st with errno := .ERANGE } with
      drapeau_err := .DRAPEAU_ERR_KIND_INAVLID_NUMBER },
    { f with kind := .u64 ULLONG_MAX }, ?_, ?_, rfl, rfl⟩
  · simp only [drapeauParse, parseLoop_cons, htok]
    rfl
  · simp [writeFlag, getElem?_modifyAt, hF]

/-- On a platform whose `strtoull` stores `EINVAL` when it finds no digits,
`prog -n not-a-number` is reported as an invalid number; the flag holds 0. -/
theorem not_a_number_reported_with_EINVAL :
    (drapeauParse bsdPlatform ["prog", "-n", "not-a-number"] (demoRegistry bsdPlatform)).map
        (fun s => (s.drapeau_err, flagsOf none s)) =
      .ok (.DRAPEAU_ERR_KIND_INAVLID_NUMBER,
        [⟨"n", .FLAG_TYPE_U64, .u64 0, .u64 7, "a number"⟩,
         ⟨"debug", .FLAG_TYPE_BOOL, .boolean false, .boolean false, "more output"⟩]) :=
  rfl

/-- In a registry, `drapeauParse` with a first argument that does not start
with `-` and is the name of no subcommand does not return: the lookup calls
`strcmp` with a null or indeterminate pointer. -/
theorem drapeauParse_undeclared_faults (P : Platform) (st : State) (hreg : Registry P st)
    (prog x : String) (rest : List String) (hdash : startsWithDash x = false)
    (hx : x ∉ st.subcommands.map Subcmd.name) :
    drapeauParse P (prog :: x :: rest) st = .error .strcmpNull ∨
      drapeauParse P (prog :: x :: rest) st = .error .strcmpUninit := by
  obtain ⟨hI, -, -, -⟩ := registry_inv P st hreg
  rcases findSubcmdPosition_of_not_mem P st hI x hx with h | h
  · left
    simp [drapeauParse, hdash, h]
  · right
    simp [drapeauParse, hdash, h]

/-- In a registry, a flag declaration with the name of no subcommand does not
return: the lookup calls `strcmp` with a null or indeterminate pointer. -/
theorem declare_undeclared_faults (P : Platform) (st : State) (hreg : Registry P st)
    (d : FlagDecl) (s : String) (hs : s ∉ st.subcommands.map Subcmd.name) :
    d.run P (some s) st = .error .strcmpNull ∨ d.run P (some s) st = .error .strcmpUninit := by
  obtain ⟨hI, -, -, -⟩ := registry_inv P st hreg
  rw [(FlagDecl.run_eq P (some s) d st).1]
  rcases findSubcmdPosition_of_not_mem P st hI s hs with h | h
  · left
    simp [declareFlag, drapeauGetFlag, h]
  · right
    simp [declareFlag, drapeauGetFlag, h]

/-! ## The claims -/

/-- C1: after `drapeauStart` and calls of `drapeauSubcmd` with pairwise distinct
names, at most `SUBCOMMAND_CAPACITY` of them, every call returns and
`findSubcmdPosition` on the `i`-th declared name returns true with output `i`,
whatever buckets the names hash to. -/
theorem C1_lookup_finds_declared (P : Platform) (prog pdesc : String)
    (subs : List (String × String)) (hnd : (subs.map Prod.fst).Nodup)
    (hcap : subs.length ≤ SUBCOMMAND_CAPACITY) :
    ∃ st, declareSubcmds P subs (drapeauStart prog pdesc State.init) = .ok st ∧
      ∀ i name, (subs.map Prod.fst)[i]? = some name →
        findSubcmdPosition P st name = .ok (some i) := by
  obtain ⟨st, hst, hI, hnames⟩ := declareSubcmds_ok P subs (drapeauStart prog pdesc State.init)
    (indexAgrees_start P prog pdesc) (by simpa [drapeauStart, State.init] using hcap)
  refine ⟨st, hst, ?_⟩
  intro i name hi
  have hn : st.subcommands.map Subcmd.name = subs.map Prod.fst := by
    simpa [drapeauStart, State.init] using hnames
  apply findSubcmdPosition_of_first P st hI name i
  · rw [hn]
    exact hi
  · rw [hn]
    exact nodup_first _ hnd i name hi

/-- Witness of C1: three subcommands, of which `b` and `ic` share bucket 485. -/
theorem C1_lookup_finds_declared_witness :
    drapeauHash glibcPlatform "b" = drapeauHash glibcPlatform "ic" ∧
    ∃ st, declareSubcmds glibcPlatform [("b", ""), ("ic", ""), ("build", "")]
        (drapeauStart "prog" "" State.init) = .ok st ∧
      ∀ i name, ([("b", ""), ("ic", ""), ("build", "")].map Prod.fst)[i]? = some name →
        findSubcmdPosition glibcPlatform st name = .ok (some i) :=
  ⟨rfl, C1_lookup_finds_declared glibcPlatform "prog" "" [("b", ""), ("ic", ""), ("build", "")]
    (by decide) (by decide)⟩

/-- C2: in a registry, for the global scope or a declared subcommand that has
no flag yet, declaring up to `FLAG_CAPACITY` flags with pairwise distinct
names through `drapeauBool`, `drapeauU64` and `drapeauStr` returns for the
`i`-th declaration the handle of slot `i` of the scope, and the name search of
`drapeauParse` for the `i`-th name in that scope ends at slot `i`, which holds
the declared record. -/
theorem C2_declared_flag_is_found (P : Platform) (st : State) (hreg : Registry P st)
    (sub : Option String) (scope : Option Nat)
    (hscope : (sub = none ∧ scope = none) ∨
      ∃ pos sc, sub = some sc.name ∧ scope = some pos ∧ st.subcommands[pos]? = some sc ∧
        ∀ k c, k < pos → st.subcommands[k]? = some c → c.name ≠ sc.name)
    (hempty : flagsOf scope st = []) (decls : List FlagDecl)
    (hnd : (decls.map FlagDecl.name).Nodup) (hcap : decls.length ≤ FLAG_CAPACITY) :
    ∃ handles st1, declareFlags P sub decls st = .ok (handles, st1) ∧
      ∀ i d, decls[i]? = some d →
        handles[i]? = some (some (FlagRef.mk scope i)) ∧
        flagSearch d.name (flagsOf scope st1) = i ∧
        (flagsOf scope st1)[i]? = some d.flag := by
  obtain ⟨hI, -, -, -⟩ := registry_inv P st hreg
  have hres : (sub = none ∧ scope = none) ∨
      ∃ s pos, sub = some s ∧ scope = some pos ∧
        findSubcmdPosition P st s = .ok (some pos) ∧ pos < st.subcommands.length := by
    rcases hscope with h | ⟨pos, sc, h1, h2, hsc, hfirst⟩
    · exact Or.inl h
    · have hpos : pos < st.subcommands.length := (List.getElem?_eq_some.mp hsc).1
      refine Or.inr ⟨sc.name, pos, h1, h2, ?_, hpos⟩
      apply findSubcmdPosition_of_first P st hI sc.name pos
      · simp [hsc]
      · intro k hk e
        simp only [List.getElem?_map, Option.map_eq_some'] at e
        obtain ⟨c, hc, hcn⟩ := e
        exact hfirst k c hk hc hcn
  obtain ⟨handles, st1, hrun, hfl, hh⟩ := declareFlags_spec P sub scope decls st hres
    (by simpa [hempty] using hcap)
  refine ⟨handles, st1, hrun, ?_⟩
  intro i d hd
  have hslot : (flagsOf scope st1)[i]? = some d.flag := by
    simp [hfl, hempty, hd]
  refine ⟨by simpa [hempty] using hh i d hd, ?_, hslot⟩
  apply flagSearch_of_first d.name _ i d.flag hslot (FlagDecl.run_eq P sub d st).2.2
  intro k g hk hg e
  have hgk : (decls.map FlagDecl.name)[k]? = some d.name := by
    rw [hfl, hempty, List.nil_append, List.getElem?_map, Option.map_eq_some'] at hg
    obtain ⟨d1, hd1, hd1g⟩ := hg
    rw [List.getElem?_map, hd1, Option.map_some', ← e, ← hd1g,
      (FlagDecl.run_eq P sub d1 st).2.2]
  exact nodup_first _ hnd i d.name (by simp [hd]) k hk hgk

/-- Witness of C2: three flags of the three kinds declared in the subcommand
`build` of a fresh registry. -/
theorem C2_declared_flag_is_found_witness :
    ∃ handles st1,
      declareFlags glibcPlatform (some "build")
        [.bool "v" false "", .u64 "n" 3 "", .str "o" none ""]
        (afterSubcmd glibcPlatform "build" "" (drapeauStart "prog" "" State.init)) =
          .ok (handles, st1) ∧
      ∀ i d, [FlagDecl.bool "v" false "", .u64 "n" 3 "", .str "o" none ""][i]? = some d →
        handles[i]? = some (some (FlagRef.mk (some 0) i)) ∧
        flagSearch d.name (flagsOf (some 0) st1) = i ∧
        (flagsOf (some 0) st1)[i]? = some d.flag :=
  C2_declared_flag_is_found glibcPlatform
    (afterSubcmd glibcPlatform "build" "" (drapeauStart "prog" "" State.init))
    (Registry.subcmd "build" "" (Registry.start "prog" "") rfl) (some "build") (some 0)
    (Or.inr ⟨0, ⟨"build", "", false, []⟩, rfl, rfl, rfl, fun k c hk => absurd hk (Nat.not_lt_zero k)⟩)
    rfl [.bool "v" false "", .u64 "n" 3 "", .str "o" none ""] (by decide) (by decide)

/-- Counterexample to C3 as stated: the subcommand `build` owns the boolean flag
named `-` (default false), the only flag of `build`; on
`prog build --` the token is skipped as the separator, so `build` is activated
and no error is recorded, but the flag is still false. -/
theorem C3_counterexample_flag_named_dash :
    Registry glibcPlatform (dashRegistry glibcPlatform) ∧
    (dashRegistry glibcPlatform).subcommands =
      [⟨"build", "compile", false, [⟨"-", .FLAG_TYPE_BOOL, .boolean false, .boolean false, ""⟩]⟩] ∧
    startsWithDash "build" = false ∧
    (drapeauParse glibcPlatform ["prog", "build", "-" ++ "-"] (dashRegistry glibcPlatform)).map
        (fun s => (s.drapeau_err, s.subcommands)) =
      .ok (.DRAPEAU_ERR_KIND_OK,
        [⟨"build", "compile", true,
          [⟨"-", .FLAG_TYPE_BOOL, .boolean false, .boolean false, ""⟩]⟩]) :=
  ⟨Registry.flag (.bool "-" false "") (some "build")
      (Registry.subcmd "build" "compile" (Registry.start "prog" "a demo") rfl) rfl,
    rfl, rfl, rfl⟩

/-- C3, amended: in a registry with pairwise distinct subcommand names, let the
subcommand `S` at position `pos`, whose name does not start with `-`, own at
slot `j` a boolean flag `F` whose name no other flag of `S` has and which is
not `-`.  Then `drapeauParse` on `[prog, S, "-" ++ F]` returns, `S` is
activated, the value of `F` is true, and no error is recorded. -/
theorem C3_subcommand_bool_flag (P : Platform) (st : State) (hreg : Registry P st)
    (hnd : (st.subcommands.map Subcmd.name).Nodup) (prog : String) (pos : Nat) (sc : Subcmd)
    (hS : st.subcommands[pos]? = some sc) (hdash : startsWithDash sc.name = false)
    (j : Nat) (f : Flag) (hF : sc.flags[j]? = some f) (hty : f.type = .FLAG_TYPE_BOOL)
    (huniq : ∀ k g, sc.flags[k]? = some g → g.name = f.name → k = j)
    (hsep : f.name ≠ "-") :
    ∃ st1 sc1 f1, drapeauParse P [prog, sc.name, "-" ++ f.name] st = .ok st1 ∧
      st1.subcommands[pos]? = some sc1 ∧ sc1.is_activate = true ∧
      st1.activated_subcmd = some pos ∧
      sc1.flags[j]? = some f1 ∧ f1.kind = .boolean true ∧
      st1.drapeau_err = .DRAPEAU_ERR_KIND_OK := by
  obtain ⟨hI, herr, -, -⟩ := registry_inv P st hreg
  have hpos : pos < st.subcommands.length := (List.getElem?_eq_some.mp hS).1
  have hname : (st.subcommands.map Subcmd.name)[pos]? = some sc.name := by simp [hS]
  have hfind : findSubcmdPosition P st sc.name = .ok (some pos) :=
    findSubcmdPosition_of_first P st hI sc.name pos hname (nodup_first _ hnd pos sc.name hname)
  have hfl : flagsOf (some pos)
      { st with
        activated_subcmd := some pos
        subcommands := modifyAt (fun c => { c with is_activate := true }) pos st.subcommands } =
      sc.flags := by
    rw [flagsOf_activate]
    simp [flagsOf, hS]
  have hj : flagSearch (afterDash ("-" ++ f.name)) sc.flags = j := by
    rw [afterDash_dash_append]
    apply flagSearch_of_first f.name sc.flags j f hF rfl
    intro k g hk hg e
    have := huniq k g hg e
    omega
  have htok := parseToken_bool P (some pos) ("-" ++ f.name) []
    { st with
      activated_subcmd := some pos
      subcommands := modifyAt (fun c => { c with is_activate := true }) pos st.subcommands }
    f (dash_append_ne_sep f.name hsep) (startsWithDash_dash_append f.name)
    (by rw [hfl, hj]; exact hF) hty
  rw [hfl, hj] at htok
  refine ⟨writeFlag ⟨some pos, j⟩ (fun f => { f with kind := .boolean true })
      { st with
        activated_subcmd := some pos
        subcommands := modifyAt (fun c => { c with is_activate := true }) pos st.subcommands },
    { sc with
      is_activate := true
      flags := modifyAt (fun f => { f with kind := .boolean true }) j sc.flags },
    { f with kind := .boolean true }, ?_, ?_, rfl, ?_, ?_, rfl, ?_⟩
  · simp only [drapeauParse, hdash, Bool.not_false, if_true, hfind, hpos, parseLoop_cons, htok,
      parseLoop]
  · simp [writeFlag, getElem?_modifyAt, hS]
  · rfl
  · simp [getElem?_modifyAt, hF]
  · exact herr

/-- Witness of C3: the instance of the specification, `prog build -verbose`. -/
theorem C3_subcommand_bool_flag_witness :
    ∃ st1 sc1 f1,
      drapeauParse glibcPlatform ["prog", "build", "-" ++ "verbose"]
        (demoRegistry glibcPlatform) = .ok st1 ∧
      st1.subcommands[0]? = some sc1 ∧ sc1.is_activate = true ∧
      st1.activated_subcmd = some 0 ∧
      sc1.flags[0]? = some f1 ∧ f1.kind = .boolean true ∧
      st1.drapeau_err = .DRAPEAU_ERR_KIND_OK :=
  C3_subcommand_bool_flag glibcPlatform (demoRegistry glibcPlatform)
    (Registry.flag (.bool "debug" false "more output") none
      (Registry.flag (.u64 "n" 7 "a number") none
        (Registry.flag (.bool "verbose" false "say more") (some "build")
          (Registry.subcmd "build" "compile" (Registry.start "prog" "a demo") rfl) rfl) rfl) rfl)
    (by decide) "prog" 0
    ⟨"build", "compile", false,
      [⟨"verbose", .FLAG_TYPE_BOOL, .boolean false, .boolean false, "say more"⟩]⟩
    rfl rfl 0 ⟨"verbose", .FLAG_TYPE_BOOL, .boolean false, .boolean false, "say more"⟩ rfl rfl
    (by
      intro k g hg _
      cases k with
      | zero => rfl
      | succ k => simp at hg)
    (by decide)

/-- C4: in a registry whose global scope has at slot `j` an integer flag named
`n`, the only global flag of that name, `drapeauParse` on `[prog, "-n", tok]`
for a decimal, `0x`-hexadecimal or `0`-octal numeral `tok` of a value
`v < 2 ^ 64` returns with the value of `n` equal to `v` and no error
recorded. -/
theorem C4_integer_flag_numeral (P : Platform) (st : State) (hreg : Registry P st)
    (prog : String) (j : Nat) (f : Flag) (hF : st.main_flags[j]? = some f)
    (hname : f.name = "n") (hty : f.type = .FLAG_TYPE_U64)
    (huniq : ∀ k g, st.main_flags[k]? = some g → g.name = "n" → k = j)
    (tok : String) (v : Nat) (hnum : IsNumeral tok v) (hv : v < 2 ^ 64) :
    ∃ st1 f1, drapeauParse P [prog, "-n", tok] st = .ok st1 ∧
      st1.main_flags[j]? = some f1 ∧ f1.kind = .u64 v ∧
      st1.drapeau_err = .DRAPEAU_ERR_KIND_OK := by
  obtain ⟨-, herr, herrno, -⟩ := registry_inv P st hreg
  have hj : flagSearch (afterDash "-n") (flagsOf none st) = j := by
    apply flagSearch_of_first "n" st.main_flags j f hF hname
    intro k g hk hg e
    have := huniq k g hg e
    omega
  have htok := parseToken_u64 P none "-n" tok [] st f (by decide) (by decide)
    (by rw [hj]; exact hF) hty
  rw [strtoull_numeral P tok v st.errno hnum hv, hj] at htok
  simp only [herrno] at htok
  refine ⟨writeFlag ⟨none, j⟩ (fun f => { f with kind := .u64 v }) { st with errno := .zero },
    { f with kind := .u64 v }, ?_, ?_, rfl, ?_⟩
  · simp only [drapeauParse, parseLoop_cons, htok, parseLoop]
    rfl
  · simp [writeFlag, getElem?_modifyAt, hF]
  · exact herr

/-- Witness of C4: the instance of the specification, `prog -n 42`. -/
theorem C4_integer_flag_numeral_witness :
    ∃ st1 f1, drapeauParse glibcPlatform ["prog", "-n", "42"] (demoRegistry glibcPlatform) =
        .ok st1 ∧
      st1.main_flags[0]? = some f1 ∧ f1.kind = .u64 42 ∧
      st1.drapeau_err = .DRAPEAU_ERR_KIND_OK :=
  C4_integer_flag_numeral glibcPlatform (demoRegistry glibcPlatform)
    (Registry.flag (.bool "debug" false "more output") none
      (Registry.flag (.u64 "n" 7 "a number") none
        (Registry.flag (.bool "verbose" false "say more") (some "build")
          (Registry.subcmd "build" "compile" (Registry.start "prog" "a demo") rfl) rfl) rfl) rfl)
    "prog" 0 ⟨"n", .FLAG_TYPE_U64, .u64 7, .u64 7, "a number"⟩ rfl rfl rfl
    (by
      intro k g hg hn
      match k, hg with
      | 0, _ => rfl
      | 1, hg =>
        have : g = ⟨"debug", .FLAG_TYPE_BOOL, .boolean false, .boolean false, "more output"⟩ := by
          have h1 : (demoRegistry glibcPlatform).main_flags[1]? = some
              ⟨"debug", .FLAG_TYPE_BOOL, .boolean false, .boolean false, "more output"⟩ := rfl
          rw [h1] at hg
          exact (Option.some.inj hg).symm
        rw [this] at hn
        exact absurd hn (by decide)
      | k + 2, hg =>
        have h2 : (demoRegistry glibcPlatform).main_flags[k + 2]? = none := rfl
        rw [h2] at hg
        exact absurd hg (by simp))
    "42" 42 (Or.inl ⟨'4', ['2'], rfl, by decide, rfl⟩) (by norm_num)

/-- C5, the failing input: on a platform whose `strtoull` leaves `errno` alone
when it finds no digits, `prog -n not-a-number` on the registry with the global
integer flag `n` (default 7) returns with no error recorded and `n` set to 0. -/
theorem C5_not_a_number_unreported :
    (drapeauParse glibcPlatform ["prog", "-n", "not-a-number"] (demoRegistry glibcPlatform)).map
        (fun s => (s.drapeau_err, flagsOf none s)) =
      .ok (.DRAPEAU_ERR_KIND_OK,
        [⟨"n", .FLAG_TYPE_U64, .u64 0, .u64 7, "a number"⟩,
         ⟨"debug", .FLAG_TYPE_BOOL, .boolean false, .boolean false, "more output"⟩]) :=
  rfl

/-- Counterexample to C6 as stated: the global integer flag `n` holds 7 before
`prog -n 99999999999999999999`; the call reports the invalid number, and `n`
holds `ULLONG_MAX` afterwards. -/
theorem C6_counterexample_overflow_overwrites :
    flagsOf none (demoRegistry glibcPlatform) =
      [⟨"n", .FLAG_TYPE_U64, .u64 7, .u64 7, "a number"⟩,
       ⟨"debug", .FLAG_TYPE_BOOL, .boolean false, .boolean false, "more output"⟩] ∧
    (drapeauParse glibcPlatform ["prog", "-n", "99999999999999999999"]
        (demoRegistry glibcPlatform)).map (fun s => (s.drapeau_err, flagsOf none s)) =
      .ok (.DRAPEAU_ERR_KIND_INAVLID_NUMBER,
        [⟨"n", .FLAG_TYPE_U64, .u64 18446744073709551615, .u64 7, "a number"⟩,
         ⟨"debug", .FLAG_TYPE_BOOL, .boolean false, .boolean false, "more output"⟩]) :=
  ⟨rfl, rfl⟩

/-- C6, amended: when a round of the loop of `drapeauParse` returns with the
invalid-number error, its token named an integer flag of the active scope, the
value of that flag is now what `strtoull` returned for the value token, and
every other flag slot of every scope is as it was before the round. -/
theorem C6_invalid_number_frame (P : Platform) (scope : Option Nat) (tok : String)
    (rest : List String) (st st1 : State)
    (h : parseToken P scope tok rest st = .ok (.ret st1))
    (herr : st1.drapeau_err = .DRAPEAU_ERR_KIND_INAVLID_NUMBER) :
    ∃ (j : Nat) (f : Flag) (v : String) (rest1 : List String),
      rest = v :: rest1 ∧ (flagsOf scope st)[j]? = some f ∧
      f.type = .FLAG_TYPE_U64 ∧ tok = "-" ++ f.name ∧
      (flagsOf scope st1)[j]? = some { f with kind := .u64 (strtoull P v st.errno).1 } ∧
      ∀ sc i, (sc ≠ scope ∨ i ≠ j) → (flagsOf sc st1)[i]? = (flagsOf sc st)[i]? := by
  unfold parseToken at h
  by_cases hsep : tok = "--"
  · simp [hsep] at h
  · simp only [hsep, if_false] at h
    by_cases hdash : startsWithDash tok = true
    · simp only [hdash, Bool.not_true, Bool.false_eq_true, if_false] at h
      cases hf : (flagsOf scope st)[flagSearch (afterDash tok) (flagsOf scope st)]? with
      | none =>
        simp only [hf, Except.ok.injEq, Step.ret.injEq] at h
        subst h
        simp at herr
      | some f =>
        simp only [hf] at h
        cases hty : f.type with
        | FLAG_TYPE_NIL => simp [hty] at h
        | FLAG_TYPE_BOOL => simp [hty] at h
        | FLAG_TYPE_STRING =>
          simp only [hty] at h
          cases rest <;> simp at h
        | FLAG_TYPE_U64 =>
          simp only [hty] at h
          cases rest with
          | nil => simp at h
          | cons v rest1 =>
            simp only [] at h
            split at h
            · simp only [Except.ok.injEq, Step.ret.injEq] at h
              subst h
              refine ⟨flagSearch (afterDash tok) (flagsOf scope st), f, v, rest1, rfl, hf, hty,
                ?_, ?_, ?_⟩
              · rw [flagSearch_name _ _ f hf]
                exact eq_dash_append_of_startsWithDash tok hdash
              · rw [flagsOf_err, flagsOf_writeFlag, if_pos rfl, getElem?_modifyAt, if_pos rfl,
                  flagsOf_errno scope st (strtoull P v st.errno).2, hf]
                rfl
              · intro sc i hne
                rw [flagsOf_err, flagsOf_writeFlag, flagsOf_errno sc st (strtoull P v st.errno).2]
                by_cases e : sc = scope
                · rw [if_pos e, getElem?_modifyAt]
                  rcases hne with h1 | h1
                  · exact absurd e h1
                  · rw [if_neg h1]
                · rw [if_neg e]
            · simp at h
    · simp only [hdash, Bool.not_false, if_true, Except.ok.injEq, Step.ret.injEq] at h
      subst h
      simp at herr

/-- Witness of C6, amended: the round of `prog -n 99999999999999999999` on the
token `-n`. -/
theorem C6_invalid_number_frame_witness :
    ∃ (j : Nat) (f : Flag) (v : String) (rest1 : List String),
      ["99999999999999999999"] = v :: rest1 ∧
      (flagsOf none (demoRegistry glibcPlatform))[j]? = some f ∧
      f.type = .FLAG_TYPE_U64 ∧ "-n" = "-" ++ f.name ∧
      (flagsOf none (afterParse glibcPlatform ["prog", "-n", "99999999999999999999"]
        (demoRegistry glibcPlatform)))[j]? =
        some { f with
          kind := .u64 (strtoull glibcPlatform v (demoRegistry glibcPlatform).errno).1 } ∧
      ∀ sc i, (sc ≠ none ∨ i ≠ j) →
        (flagsOf sc (afterParse glibcPlatform ["prog", "-n", "99999999999999999999"]
          (demoRegistry glibcPlatform)))[i]? = (flagsOf sc (demoRegistry glibcPlatform))[i]? :=
  C6_invalid_number_frame glibcPlatform none "-n" ["99999999999999999999"]
    (demoRegistry glibcPlatform)
    (afterParse glibcPlatform ["prog", "-n", "99999999999999999999"] (demoRegistry glibcPlatform))
    rfl rfl

/-- C7, the failing input: `prog nosuchcmd` on the registry whose only
subcommand is `build` does not return: the lookup calls `strcmp` with the null
`name` of the empty bucket. -/
theorem C7_unknown_subcommand_faults (P : Platform) :
    drapeauParse P ["prog", "nosuchcmd"] (demoRegistry P) = .error .strcmpNull := by
  obtain ⟨a, b⟩ := P
  cases a <;> cases b <;> rfl

/-- C8: a round of the loop of `drapeauParse` whose token is not `--` returns
with the flag-not-found error recorded, and nothing else changed, exactly when
the token does not start with `-` or the text behind its `-` is the name of no
flag of the active scope; the loop then ends with that state, whatever
follows.  In particular, with a subcommand active, the name of a flag that
only the global scope has gives the error. -/
theorem C8_flag_not_found_iff (P : Platform) (scope : Option Nat) (tok : String)
    (rest : List String) (st : State) (hsep : tok ≠ "--") :
    (parseToken P scope tok rest st =
        .ok (.ret { st with drapeau_err := .DRAPEAU_ERR_KIND_FLAG_FIND }) ↔
      (startsWithDash tok = false ∨ ∀ f ∈ flagsOf scope st, f.name ≠ afterDash tok)) ∧
    (parseToken P scope tok rest st =
        .ok (.ret { st with drapeau_err := .DRAPEAU_ERR_KIND_FLAG_FIND }) →
      parseLoop P scope (tok :: rest) st =
        .ok { st with drapeau_err := .DRAPEAU_ERR_KIND_FLAG_FIND }) ∧
    (∀ pos g, scope = some pos → g ∈ st.main_flags → tok = "-" ++ g.name →
      (∀ f ∈ flagsOf (some pos) st, f.name ≠ g.name) →
      parseToken P scope tok rest st =
        .ok (.ret { st with drapeau_err := .DRAPEAU_ERR_KIND_FLAG_FIND })) := by
  have hback : (startsWithDash tok = false ∨ ∀ f ∈ flagsOf scope st, f.name ≠ afterDash tok) →
      parseToken P scope tok rest st =
        .ok (.ret { st with drapeau_err := .DRAPEAU_ERR_KIND_FLAG_FIND }) := by
    intro h
    by_cases hdash : startsWithDash tok = true
    · rcases h with h | h
      · rw [hdash] at h
        exact absurd h (by decide)
      · simp [parseToken, hsep, hdash, (flagSearch_none_iff _ _).mpr h]
    · simp [parseToken, hsep, hdash]
  refine ⟨⟨?_, hback⟩, ?_, ?_⟩
  · intro h
    by_cases hdash : startsWithDash tok = true
    · right
      rw [← flagSearch_none_iff]
      cases hf : (flagsOf scope st)[flagSearch (afterDash tok) (flagsOf scope st)]? with
      | none => rfl
      | some f =>
        exfalso
        unfold parseToken at h
        simp only [hsep, if_false, hdash, Bool.not_true, Bool.false_eq_true, hf] at h
        cases hty : f.type with
        | FLAG_TYPE_NIL => simp [hty] at h
        | FLAG_TYPE_BOOL => simp [hty] at h
        | FLAG_TYPE_STRING =>
          simp only [hty] at h
          cases rest <;> simp at h
        | FLAG_TYPE_U64 =>
          simp only [hty] at h
          cases rest with
          | nil => simp at h
          | cons v rest1 =>
            simp only [] at h
            split at h
            · simp only [Except.ok.injEq, Step.ret.injEq] at h
              have := congrArg State.drapeau_err h
              simp at this
            · simp at h
    · left
      simpa using hdash
  · intro h
    rw [parseLoop_cons, h]
  · intro pos g hscope _ htok hno
    apply hback
    right
    rw [hscope, htok, afterDash_dash_append]
    exact hno

/-- Witness of C8: with the subcommand `build` active, the token `-debug`, the
name of a global flag. -/
theorem C8_flag_not_found_iff_witness :
    "-debug" ≠ "--" ∧
    parseToken glibcPlatform (some 0) "-debug" [] (demoRegistry glibcPlatform) =
      .ok (.ret { demoRegistry glibcPlatform with
        drapeau_err := .DRAPEAU_ERR_KIND_FLAG_FIND }) :=
  ⟨by decide,
    (C8_flag_not_found_iff glibcPlatform (some 0) "-debug" [] (demoRegistry glibcPlatform)
      (by decide)).1.2 (Or.inr (by
        intro f hf
        have h1 : flagsOf (some 0) (demoRegistry glibcPlatform) =
            [⟨"verbose", .FLAG_TYPE_BOOL, .boolean false, .boolean false, "say more"⟩] := rfl
        rw [h1, List.mem_singleton] at hf
        rw [hf]
        decide))⟩

/-- C9, the failing input: on the registry whose only subcommand is `build`,
each of `drapeauBool`, `drapeauU64` and `drapeauStr` called with the
subcommand name `nosuch` does not return: the lookup calls `strcmp` with the
null `name` of the empty bucket. -/
theorem C9_undeclared_subcommand_faults (P : Platform) :
    drapeauBool P "v" false "" (some "nosuch") (demoRegistry P) = .error .strcmpNull ∧
    drapeauU64 P "v" 0 "" (some "nosuch") (demoRegistry P) = .error .strcmpNull ∧
    drapeauStr P "v" none "" (some "nosuch") (demoRegistry P) = .error .strcmpNull := by
  obtain ⟨a, b⟩ := P
  cases a <;> cases b <;> exact ⟨rfl, rfl, rfl⟩

/-- C10: in a registry, after a call of `drapeauParse` that returns, every
boolean flag of every scope whose name with a leading `-` is not among the
arguments has its declared default as value. -/
theorem C10_unmentioned_bool_keeps_default (P : Platform) (st : State) (hreg : Registry P st)
    (argv : List String) (st1 : State) (hparse : drapeauParse P argv st = .ok st1)
    (scope : Option Nat) (j : Nat) (f : Flag) (hf : (flagsOf scope st)[j]? = some f)
    (hty : f.type = .FLAG_TYPE_BOOL) (hnot : ("-" ++ f.name) ∉ argv) :
    ∃ f1, (flagsOf scope st1)[j]? = some f1 ∧ f1.name = f.name ∧
      f1.type = .FLAG_TYPE_BOOL ∧ f1.dfault = f.dfault ∧ f1.kind = f.dfault := by
  obtain ⟨-, -, -, hfresh⟩ := registry_inv P st hreg
  obtain ⟨f1, h1, hn, ht, hd, hk⟩ := drapeauParse_keeps P argv st st1 hparse scope j f hf
  exact ⟨f1, h1, hn, ht.trans hty, hd, (hk hnot).trans (hfresh scope j f hf)⟩

/-- Witness of C10: after `prog build -verbose` the global flag `debug` is
false. -/
theorem C10_unmentioned_bool_keeps_default_witness :
    ∃ f1, (flagsOf none (afterParse glibcPlatform ["prog", "build", "-verbose"]
        (demoRegistry glibcPlatform)))[1]? = some f1 ∧ f1.name = "debug" ∧
      f1.type = .FLAG_TYPE_BOOL ∧ f1.dfault = .boolean false ∧ f1.kind = .boolean false :=
  C10_unmentioned_bool_keeps_default glibcPlatform (demoRegistry glibcPlatform)
    (Registry.flag (.bool "debug" false "more output") none
      (Registry.flag (.u64 "n" 7 "a number") none
        (Registry.flag (.bool "verbose" false "say more") (some "build")
          (Registry.subcmd "build" "compile" (Registry.start "prog" "a demo") rfl) rfl) rfl) rfl)
    ["prog", "build", "-verbose"]
    (afterParse glibcPlatform ["prog", "build", "-verbose"] (demoRegistry glibcPlatform)) rfl
    none 1 ⟨"debug", .FLAG_TYPE_BOOL, .boolean false, .boolean false, "more output"⟩ rfl rfl
    (by decide)

/-! ## Lemmas on rounds and occurrences -/

/-! ### Rounds of the loop -/

/-- A round reads at most the first of the arguments behind its token. -/
theorem parseToken_head (P : Platform) (scope : Option Nat) (tok : String)
    (rest rest1 : List String) (st : State) (h : rest.head? = rest1.head?) :
    parseToken P scope tok rest st = parseToken P scope tok rest1 st := by
  cases rest with
  | nil =>
    cases rest1 with
    | nil => rfl
    | cons b r1 => simp at h
  | cons a r =>
    cases rest1 with
    | nil => simp at h
    | cons b r1 =>
      simp only [List.head?_cons, Option.some.injEq] at h
      subst h
      simp only [parseToken]

/-- A round that ends with `next` did not look behind its token. -/
theorem parseToken_next_any (P : Platform) (scope : Option Nat) (tok : String)
    (rest rest1 : List String) (st s : State) (h : parseToken P scope tok rest st = .ok (.next s)) :
    parseToken P scope tok rest1 st = .ok (.next s) := by
  unfold parseToken at h ⊢
  by_cases hsep : tok = "--"
  · simpa [hsep] using h
  · simp only [hsep, if_false] at h ⊢
    by_cases hdash : startsWithDash tok = true
    · simp only [hdash, Bool.not_true, Bool.false_eq_true, if_false] at h ⊢
      cases hf : (flagsOf scope st)[flagSearch (afterDash tok) (flagsOf scope st)]? with
      | none => simp [hf] at h
      | some f =>
        simp only [hf] at h ⊢
        cases hty : f.type with
        | FLAG_TYPE_NIL => simp [hty] at h
        | FLAG_TYPE_BOOL => simpa [hty] using h
        | FLAG_TYPE_STRING =>
          simp only [hty] at h
          cases rest <;> simp at h
        | FLAG_TYPE_U64 =>
          simp only [hty] at h
          cases rest with
          | nil => simp at h
          | cons v r =>
            simp only [] at h
            split at h <;> simp at h
    · simp [hdash] at h

/-- A round that ends with `next2` had a value behind its token. -/
theorem parseToken_next2_value (P : Platform) (scope : Option Nat) (tok : String)
    (rest : List String) (st s : State) (h : parseToken P scope tok rest st = .ok (.next2 s)) :
    ∃ v rest1, rest = v :: rest1 := by
  cases rest with
  | cons v rest1 => exact ⟨v, rest1, rfl⟩
  | nil =>
    exfalso
    unfold parseToken at h
    by_cases hsep : tok = "--"
    · simp [hsep] at h
    · simp only [hsep, if_false] at h
      by_cases hdash : startsWithDash tok = true
      · simp only [hdash, Bool.not_true, Bool.false_eq_true, if_false] at h
        cases hf : (flagsOf scope st)[flagSearch (afterDash tok) (flagsOf scope st)]? with
        | none => simp [hf] at h
        | some f =>
          simp only [hf] at h
          cases hty : f.type <;> simp [hty] at h
      · simp [hdash] at h

/-- The loop runs through whole rounds and goes on behind them. -/
theorem parseLoop_rounds (P : Platform) (scope : Option Nat) (st st1 : State)
    (pre rest : List String) (h : Rounds P scope st pre st1) :
    parseLoop P scope (pre ++ rest) st = parseLoop P scope rest st1 := by
  induction h with
  | done st => rfl
  | @next st s st1 tok pre hr _ ih =>
    rw [List.cons_append, parseLoop_cons, parseToken_next_any P scope tok [] _ st s hr]
    exact ih
  | @next2 st s st1 tok v pre hr _ ih =>
    rw [List.cons_append, List.cons_append, parseLoop_cons,
      parseToken_head P scope tok (v :: (pre ++ rest)) [v] st rfl, hr]
    exact ih

/-- A property of pairs of states that holds along every round holds along the
loop. -/
theorem parseLoop_rel (P : Platform) (scope : Option Nat) (R : State → State → Prop)
    (hrefl : ∀ s, R s s) (htrans : ∀ a b c, R a b → R b c → R a c)
    (hround : ∀ tok rest st s, parseToken P scope tok rest st = .ok s → R st s.state)
    (n : Nat) (toks : List String) (st st1 : State) (hn : toks.length ≤ n)
    (h : parseLoop P scope toks st = .ok st1) : R st st1 := by
  induction n generalizing toks st with
  | zero =>
    cases toks with
    | nil =>
      simp only [parseLoop, Except.ok.injEq] at h
      subst h
      exact hrefl _
    | cons t ts => simp at hn
  | succ n ih =>
    cases toks with
    | nil =>
      simp only [parseLoop, Except.ok.injEq] at h
      subst h
      exact hrefl _
    | cons tok rest =>
      rw [parseLoop_cons] at h
      have hlen : rest.length ≤ n := by
        simp only [List.length_cons] at hn
        omega
      cases hpt : parseToken P scope tok rest st with
      | error e => simp [hpt] at h
      | ok s =>
        have hk := hround tok rest st s hpt
        cases s with
        | ret s1 =>
          simp only [hpt, Except.ok.injEq] at h
          subst h
          exact hk
        | next s1 =>
          simp only [hpt] at h
          exact htrans _ _ _ hk (ih rest s1 hlen h)
        | next2 s1 =>
          simp only [hpt] at h
          cases rest with
          | nil => simp at h
          | cons v rest1 =>
            simp only [] at h
            have hlen1 : rest1.length ≤ n := by
              simp only [List.length_cons] at hlen
              omega
            exact htrans _ _ _ hk (ih rest1 s1 hlen1 h)

/-- What a round does, case by case. -/
theorem parseToken_inv (P : Platform) (scope : Option Nat) (tok : String) (rest : List String)
    (st : State) (s : Step) (h : parseToken P scope tok rest st = .ok s) :
    (tok = "--" ∧ s = .next st) ∨
    (tok ≠ "--" ∧
      (startsWithDash tok = false ∨
        (flagsOf scope st)[flagSearch (afterDash tok) (flagsOf scope st)]? = none) ∧
      s = .ret { st with drapeau_err := .DRAPEAU_ERR_KIND_FLAG_FIND }) ∨
    (tok ≠ "--" ∧ startsWithDash tok = true ∧
      ∃ f, (flagsOf scope st)[flagSearch (afterDash tok) (flagsOf scope st)]? = some f ∧
        ((f.type = .FLAG_TYPE_BOOL ∧
            s = .next (writeFlag ⟨scope, flagSearch (afterDash tok) (flagsOf scope st)⟩
              (fun f => { f with kind := .boolean true }) st)) ∨
          (f.type = .FLAG_TYPE_STRING ∧ ∃ v rest1, rest = v :: rest1 ∧
            s = .next2 (writeFlag ⟨scope, flagSearch (afterDash tok) (flagsOf scope st)⟩
              (fun f => { f with kind := .str (some v) }) st)) ∨
          (f.type = .FLAG_TYPE_U64 ∧ ∃ v rest1, rest = v :: rest1 ∧
            ((((strtoull P v st.errno).2 = .EINVAL ∨ (strtoull P v st.errno).2 = .ERANGE) ∧
              s = .ret
                { writeFlag ⟨scope, flagSearch (afterDash tok) (flagsOf scope st)⟩
                    (fun f => { f with kind := .u64 (strtoull P v st.errno).1 })
                    { st with errno := (strtoull P v st.errno).2 } with
                  drapeau_err := .DRAPEAU_ERR_KIND_INAVLID_NUMBER }) ∨
              (¬ ((strtoull P v st.errno).2 = .EINVAL ∨ (strtoull P v st.errno).2 = .ERANGE) ∧
                s = .next2
                  (writeFlag ⟨scope, flagSearch (afterDash tok) (flagsOf scope st)⟩
                    (fun f => { f with kind := .u64 (strtoull P v st.errno).1 })
                    { st with errno := (strtoull P v st.errno).2 })))))) := by
  unfold parseToken at h
  by_cases hsep : tok = "--"
  · left
    simp only [hsep, if_true, Except.ok.injEq] at h
    exact ⟨hsep, h.symm⟩
  · right
    simp only [hsep, if_false] at h
    by_cases hdash : startsWithDash tok = true
    · simp only [hdash, Bool.not_true, Bool.false_eq_true, if_false] at h
      cases hf : (flagsOf scope st)[flagSearch (afterDash tok) (flagsOf scope st)]? with
      | none =>
        left
        simp only [hf, Except.ok.injEq] at h
        exact ⟨hsep, Or.inr rfl, h.symm⟩
      | some f =>
        right
        refine ⟨hsep, hdash, f, rfl, ?_⟩
        simp only [hf] at h
        cases hty : f.type with
        | FLAG_TYPE_NIL => simp [hty] at h
        | FLAG_TYPE_BOOL =>
          left
          simp only [hty, Except.ok.injEq] at h
          exact ⟨rfl, h.symm⟩
        | FLAG_TYPE_STRING =>
          right
          left
          simp only [hty] at h
          cases rest with
          | nil => simp at h
          | cons v rest1 =>
            simp only [Except.ok.injEq] at h
            exact ⟨rfl, v, rest1, rfl, h.symm⟩
        | FLAG_TYPE_U64 =>
          right
          right
          simp only [hty] at h
          cases rest with
          | nil => simp at h
          | cons v rest1 =>
            simp only [] at h
            refine ⟨rfl, v, rest1, rfl, ?_⟩
            split at h
            · rename_i hc
              simp only [Except.ok.injEq] at h
              exact Or.inl ⟨hc, h.symm⟩
            · rename_i hc
              simp only [Except.ok.injEq] at h
              exact Or.inr ⟨hc, h.symm⟩
    · left
      simp only [hdash, Bool.not_false, if_true, Except.ok.injEq] at h
      exact ⟨hsep, Or.inl (by simpa using hdash), h.symm⟩

/-- A round writes flags of its scope only, leaves the activated subcommand
alone, and changes the error marker only when it returns, to one of the two
errors of the loop. -/
theorem parseToken_fields (P : Platform) (scope : Option Nat) (tok : String)
    (rest : List String) (st : State) (s : Step) (h : parseToken P scope tok rest st = .ok s) :
    (∀ sc, sc ≠ scope → flagsOf sc s.state = flagsOf sc st) ∧
      s.state.activated_subcmd = st.activated_subcmd ∧
      ((∃ s1, s = .ret s1 ∧ (s1.drapeau_err = .DRAPEAU_ERR_KIND_FLAG_FIND ∨
          s1.drapeau_err = .DRAPEAU_ERR_KIND_INAVLID_NUMBER)) ∨
        ((∃ s1, s = .next s1 ∨ s = .next2 s1) ∧ s.state.drapeau_err = st.drapeau_err)) := by
  have hw : ∀ (j : Nat) (g : Flag → Flag) (s0 : State) (sc : Option Nat), sc ≠ scope →
      flagsOf sc (writeFlag ⟨scope, j⟩ g s0) = flagsOf sc s0 := by
    intro j g s0 sc hsc
    rw [flagsOf_writeFlag, if_neg hsc]
  rcases parseToken_inv P scope tok rest st s h with ⟨-, hs⟩ | ⟨-, -, hs⟩ |
    ⟨-, -, f, -, ⟨-, hs⟩ | ⟨-, v, r1, -, hs⟩ | ⟨-, v, r1, -, ⟨-, hs⟩ | ⟨-, hs⟩⟩⟩
  · subst hs
    exact ⟨fun _ _ => rfl, rfl, Or.inr ⟨⟨st, Or.inl rfl⟩, rfl⟩⟩
  · subst hs
    exact ⟨fun sc _ => flagsOf_err sc st _, rfl, Or.inl ⟨_, rfl, Or.inl rfl⟩⟩
  · subst hs
    exact ⟨fun sc hsc => hw _ _ _ sc hsc, (writeFlag_fields _ _ _).2.2.2,
      Or.inr ⟨⟨_, Or.inl rfl⟩, (writeFlag_fields _ _ _).1⟩⟩
  · subst hs
    exact ⟨fun sc hsc => hw _ _ _ sc hsc, (writeFlag_fields _ _ _).2.2.2,
      Or.inr ⟨⟨_, Or.inr rfl⟩, (writeFlag_fields _ _ _).1⟩⟩
  · subst hs
    refine ⟨fun sc hsc => ?_, (writeFlag_fields _ _ _).2.2.2, Or.inl ⟨_, rfl, Or.inr rfl⟩⟩
    show flagsOf sc { writeFlag ⟨scope, flagSearch (afterDash tok) (flagsOf scope st)⟩
        (fun f => { f with kind := .u64 (strtoull P v st.errno).1 })
        { st with errno := (strtoull P v st.errno).2 } with
      drapeau_err := .DRAPEAU_ERR_KIND_INAVLID_NUMBER } = flagsOf sc st
    rw [flagsOf_err, hw _ _ _ sc hsc, flagsOf_errno sc st (strtoull P v st.errno).2]
  · subst hs
    refine ⟨fun sc hsc => ?_, (writeFlag_fields _ _ _).2.2.2,
      Or.inr ⟨⟨_, Or.inr rfl⟩, (writeFlag_fields _ _ _).1⟩⟩
    show flagsOf sc (writeFlag ⟨scope, flagSearch (afterDash tok) (flagsOf scope st)⟩
        (fun f => { f with kind := .u64 (strtoull P v st.errno).1 })
        { st with errno := (strtoull P v st.errno).2 }) = flagsOf sc st
    rw [hw _ _ _ sc hsc, flagsOf_errno sc st (strtoull P v st.errno).2]

/-- The loop writes flags of its scope only. -/
theorem parseLoop_other_scopes (P : Platform) (scope : Option Nat) (toks : List String)
    (st st1 : State) (h : parseLoop P scope toks st = .ok st1) :
    ∀ sc, sc ≠ scope → flagsOf sc st1 = flagsOf sc st :=
  parseLoop_rel P scope (fun a b => ∀ sc, sc ≠ scope → flagsOf sc b = flagsOf sc a)
    (fun _ _ _ => rfl) (fun _ _ _ hab hbc sc hsc => (hbc sc hsc).trans (hab sc hsc))
    (fun tok rest st s hs => (parseToken_fields P scope tok rest st s hs).1)
    toks.length toks st st1 (le_refl _) h

/-- The loop leaves the activated subcommand alone. -/
theorem parseLoop_activated (P : Platform) (scope : Option Nat) (toks : List String)
    (st st1 : State) (h : parseLoop P scope toks st = .ok st1) :
    st1.activated_subcmd = st.activated_subcmd :=
  parseLoop_rel P scope (fun a b => b.activated_subcmd = a.activated_subcmd)
    (fun _ => rfl) (fun _ _ _ hab hbc => hbc.trans hab)
    (fun tok rest st s hs => (parseToken_fields P scope tok rest st s hs).2.1)
    toks.length toks st st1 (le_refl _) h

/-- The loop leaves the error marker as it was or sets an error. -/
theorem parseLoop_err (P : Platform) (scope : Option Nat) (toks : List String)
    (st st1 : State) (h : parseLoop P scope toks st = .ok st1) :
    st1.drapeau_err = st.drapeau_err ∨ st1.drapeau_err ≠ .DRAPEAU_ERR_KIND_OK :=
  parseLoop_rel P scope
    (fun a b => b.drapeau_err = a.drapeau_err ∨ b.drapeau_err ≠ .DRAPEAU_ERR_KIND_OK)
    (fun _ => Or.inl rfl)
    (fun _ _ _ hab hbc => by
      rcases hbc with h1 | h1
      · rcases hab with h2 | h2
        · exact Or.inl (h1.trans h2)
        · exact Or.inr (by rw [h1]; exact h2)
      · exact Or.inr h1)
    (fun tok rest st s hs => by
      rcases (parseToken_fields P scope tok rest st s hs).2.2 with ⟨s1, rfl, h1 | h1⟩ | ⟨-, h1⟩
      · exact Or.inr (by simp [Step.state, h1])
      · exact Or.inr (by simp [Step.state, h1])
      · exact Or.inl h1)
    toks.length toks st st1 (le_refl _) h

/-- A flag declaration that returns leaves the activated subcommand and the
name index alone, and leaves the error marker as it was or sets the
subcommand-not-found error. -/
theorem declareFlag_fields (P : Platform) (n : String) (ty : FlagType) (k : FlagKind)
    (d : String) (sub : Option String) (st st1 : State) (r : Option FlagRef)
    (h : declareFlag P n ty k d sub st = .ok (r, st1)) :
    st1.activated_subcmd = st.activated_subcmd ∧ st1.hash_map = st.hash_map ∧
      (st1.drapeau_err = st.drapeau_err ∨
        st1.drapeau_err = .DRAPEAU_ERR_KIND_SUBCOMMAND_FIND) := by
  cases sub with
  | none =>
    by_cases hlen : st.main_flags.length < FLAG_CAPACITY
    · rw [declareFlag_global P n ty k d st hlen] at h
      simp only [Except.ok.injEq, Prod.mk.injEq] at h
      rw [← h.2]
      exact ⟨rfl, rfl, Or.inl rfl⟩
    · simp [declareFlag, drapeauGetFlag, hlen] at h
  | some s =>
    cases hf : findSubcmdPosition P st s with
    | error e => simp [declareFlag, drapeauGetFlag, hf] at h
    | ok o =>
      cases o with
      | none =>
        simp only [declareFlag, drapeauGetFlag, hf, Except.ok.injEq, Prod.mk.injEq] at h
        rw [← h.2]
        exact ⟨rfl, rfl, Or.inr rfl⟩
      | some pos =>
        cases hsc : st.subcommands[pos]? with
        | none => simp [declareFlag, drapeauGetFlag, hf, hsc] at h
        | some sc =>
          by_cases hlen : sc.flags.length < FLAG_CAPACITY
          · rw [declareFlag_sub P n ty k d st s pos sc hf hsc hlen] at h
            simp only [Except.ok.injEq, Prod.mk.injEq] at h
            rw [← h.2]
            exact ⟨rfl, rfl, Or.inl rfl⟩
          · simp [declareFlag, drapeauGetFlag, hf, hsc, hlen] at h

/-- In a registry no subcommand is activated. -/
theorem registry_activated (P : Platform) (st : State) (hreg : Registry P st) :
    st.activated_subcmd = none := by
  induction hreg with
  | start name desc => rfl
  | @subcmd st st1 h name desc _ hs ih =>
    by_cases hlen : st.subcommands.length < SUBCOMMAND_CAPACITY
    · obtain ⟨st2, h2, -, -, -, -, hact, -⟩ := drapeauSubcmd_ok P name desc st hlen
      rw [h2] at hs
      simp only [Except.ok.injEq, Prod.mk.injEq] at hs
      rw [← hs.1, hact, ih]
    · simp [drapeauSubcmd, hlen] at hs
  | @flag st st1 r d sub _ hs ih =>
    rw [(FlagDecl.run_eq P sub d st).1] at hs
    rw [(declareFlag_fields P _ _ _ _ sub st st1 r hs).1, ih]

/-- The example `toolRegistry` is a registry. -/
theorem toolRegistry_registry : Registry glibcPlatform (toolRegistry glibcPlatform) :=
  Registry.flag (.bool "debug" false "more output") none
    (Registry.flag (.str "s" none "a text") none
      (Registry.flag (.u64 "n" 7 "a number") none
        (Registry.flag (.bool "verbose" false "say more") (some "test")
          (Registry.subcmd "test" "check"
            (Registry.flag (.bool "verbose" false "say more") (some "build")
              (Registry.subcmd "build" "compile" (Registry.start "prog" "a demo") rfl) rfl)
            rfl) rfl) rfl) rfl) rfl

/-- The flags of `toolRegistry`, scope by scope. -/
theorem toolRegistry_flags :
    flagsOf none (toolRegistry glibcPlatform) =
      [⟨"n", .FLAG_TYPE_U64, .u64 7, .u64 7, "a number"⟩,
       ⟨"s", .FLAG_TYPE_STRING, .str none, .str none, "a text"⟩,
       ⟨"debug", .FLAG_TYPE_BOOL, .boolean false, .boolean false, "more output"⟩] ∧
    flagsOf (some 0) (toolRegistry glibcPlatform) =
      [⟨"verbose", .FLAG_TYPE_BOOL, .boolean false, .boolean false, "say more"⟩] ∧
    flagsOf (some 1) (toolRegistry glibcPlatform) =
      [⟨"verbose", .FLAG_TYPE_BOOL, .boolean false, .boolean false, "say more"⟩] :=
  ⟨rfl, rfl, rfl⟩

/-- The call of `drapeauParse` whose first argument selects the subcommand at
`pos`: the loop in the scope of the subcommand, from the activated state. -/
theorem drapeauParse_subcmd (P : Platform) (st : State) (prog first : String)
    (rest : List String) (pos : Nat) (hdash : startsWithDash first = false)
    (hfind : findSubcmdPosition P st first = .ok (some pos))
    (hpos : pos < st.subcommands.length) :
    drapeauParse P (prog :: first :: rest) st =
      parseLoop P (some pos) rest
        { st with
          activated_subcmd := some pos
          subcommands := modifyAt (fun c => { c with is_activate := true }) pos st.subcommands } := by
  simp [drapeauParse, hdash, hfind, hpos]

/-- The call of `drapeauParse` whose first argument starts with `-`: the loop
in the global scope. -/
theorem drapeauParse_global (P : Platform) (st : State) (prog first : String)
    (rest : List String) (hdash : startsWithDash first = true) :
    drapeauParse P (prog :: first :: rest) st = parseLoop P none (first :: rest) st := by
  simp [drapeauParse, hdash]

/-- A round in which the token names a string flag and a value follows. -/
theorem parseToken_str (P : Platform) (scope : Option Nat) (tok v : String) (rest : List String)
    (st : State) (f : Flag) (hsep : tok ≠ "--") (hdash : startsWithDash tok = true)
    (hf : (flagsOf scope st)[flagSearch (afterDash tok) (flagsOf scope st)]? = some f)
    (hty : f.type = .FLAG_TYPE_STRING) :
    parseToken P scope tok (v :: rest) st =
      .ok (.next2 (writeFlag ⟨scope, flagSearch (afterDash tok) (flagsOf scope st)⟩
        (fun f => { f with kind := .str (some v) }) st)) := by
  simp [parseToken, hsep, hdash, hf, hty]

/-- Every position that carries a value has a first position that carries it. -/
theorem exists_first {α : Type} (l : List α) (k : Nat) (x : α) (hk : l[k]? = some x) :
    ∃ i, i ≤ k ∧ l[i]? = some x ∧ ∀ j, j < i → l[j]? ≠ some x := by
  induction l generalizing k with
  | nil => simp at hk
  | cons a l ih =>
    by_cases ha : a = x
    · exact ⟨0, Nat.zero_le _, by simp [ha], fun j hj => absurd hj (Nat.not_lt_zero j)⟩
    · cases k with
      | zero =>
        simp at hk
        exact absurd hk ha
      | succ k =>
        obtain ⟨i, hik, hi, hfirst⟩ := ih k (by simpa using hk)
        refine ⟨i + 1, by omega, by simpa using hi, ?_⟩
        intro j hj
        cases j with
        | zero => simpa using ha
        | succ j => simpa using hfirst j (by omega)

/-! ### Occurrences -/

/-- The number that `strtoull` returns does not depend on `errno`. -/
theorem strtoull_fst (P : Platform) (v : String) (e : Errno) :
    (strtoull P v e).1 = (strtoull P v .zero).1 := by
  unfold strtoull
  simp only []
  split
  · rfl
  · split <;> rfl

theorem occurrences_cons (P : Platform) (flags : List Flag) (tok : String)
    (rest : List String) :
    occurrences P flags (tok :: rest) =
      match occurrenceAt P flags tok rest.head? with
      | .separator => occurrences P flags rest
      | .plain j k => (j, k) :: occurrences P flags rest
      | .valued j k =>
        match rest with
        | [] => []
        | _ :: rest1 => (j, k) :: occurrences P flags rest1
      | .unmatched => [] := by
  rw [occurrences]

/-- The reading of an argument depends on the names and types of the flags
only. -/
theorem occurrenceAt_congr (P : Platform) (fl fl1 : List Flag)
    (hname : fl1.map Flag.name = fl.map Flag.name)
    (htype : fl1.map Flag.type = fl.map Flag.type) (tok : String) (next : Option String) :
    occurrenceAt P fl1 tok next = occurrenceAt P fl tok next := by
  have hg : (fl1[flagSearch (afterDash tok) fl]?).map Flag.type =
      (fl[flagSearch (afterDash tok) fl]?).map Flag.type := by
    rw [← List.getElem?_map, ← List.getElem?_map, htype]
  simp only [occurrenceAt, flagSearch_congr _ fl fl1 hname]
  cases h1 : fl1[flagSearch (afterDash tok) fl]? with
  | none =>
    cases h2 : fl[flagSearch (afterDash tok) fl]? with
    | none => rfl
    | some f => simp [h1, h2] at hg
  | some f1 =>
    cases h2 : fl[flagSearch (afterDash tok) fl]? with
    | none => simp [h1, h2] at hg
    | some f =>
      simp only [h1, h2, Option.map_some', Option.some.injEq] at hg
      simp only [hg]

/-- The occurrences depend on the names and types of the flags only. -/
theorem occurrences_congr (P : Platform) (fl fl1 : List Flag)
    (hname : fl1.map Flag.name = fl.map Flag.name)
    (htype : fl1.map Flag.type = fl.map Flag.type) (n : Nat) (toks : List String)
    (hn : toks.length ≤ n) : occurrences P fl1 toks = occurrences P fl toks := by
  induction n generalizing toks with
  | zero =>
    cases toks with
    | nil => rfl
    | cons t ts => simp at hn
  | succ n ih =>
    cases toks with
    | nil => rfl
    | cons tok rest =>
      have hlen : rest.length ≤ n := by
        simp only [List.length_cons] at hn
        omega
      rw [occurrences_cons, occurrences_cons, occurrenceAt_congr P fl fl1 hname htype,
        ih rest hlen]
      cases rest with
      | nil => rfl
      | cons v rest1 =>
        have hlen1 : rest1.length ≤ n := by
          simp only [List.length_cons] at hlen
          omega
        simp only [ih rest1 hlen1]

/-- Writing a value changes no occurrence. -/
theorem occurrences_modifyAt (P : Platform) (fl : List Flag) (j : Nat) (k : FlagKind)
    (toks : List String) :
    occurrences P (modifyAt (fun f => { f with kind := k }) j fl) toks = occurrences P fl toks :=
  occurrences_congr P fl (modifyAt (fun f => { f with kind := k }) j fl)
    (map_modifyAt (fun f => { f with kind := k }) Flag.name j fl (fun _ => rfl))
    (map_modifyAt (fun f => { f with kind := k }) Flag.type j fl (fun _ => rfl))
    toks.length toks (le_refl _)

/-- One more occurrence in front: the slot holds the last value assigned behind
it, else the value of this occurrence, else what it held. -/
theorem lastValue_step (fl : List Flag) (j0 j : Nat) (k : FlagKind) (f : Flag)
    (os : List (Nat × FlagKind)) (hf : fl[j]? = some f) (final : Option Flag)
    (hfin : ∀ g, (modifyAt (fun f => { f with kind := k }) j0 fl)[j]? = some g →
      final = some { g with kind := (lastValue j os).getD g.kind }) :
    final = some { f with kind := (lastValue j ((j0, k) :: os)).getD f.kind } := by
  by_cases e : j = j0
  · subst e
    have := hfin { f with kind := k } (by simp [getElem?_modifyAt, hf])
    rw [this]
    cases hl : lastValue j os <;> simp [lastValue, hl]
  · have := hfin f (by simp [getElem?_modifyAt, e, hf])
    rw [this]
    have e1 : ¬ j0 = j := fun h => e h.symm
    cases hl : lastValue j os <;> simp [lastValue, hl, e1]

/-- Along a loop that ends without an error recorded, every flag of the scope
holds the value of its last occurrence, or its old value when it has none. -/
theorem parseLoop_last (P : Platform) (scope : Option Nat) (n : Nat) (toks : List String)
    (st st1 : State) (hn : toks.length ≤ n) (h : parseLoop P scope toks st = .ok st1)
    (h0 : st.drapeau_err = .DRAPEAU_ERR_KIND_OK) (h1 : st1.drapeau_err = .DRAPEAU_ERR_KIND_OK)
    (j : Nat) (f : Flag) (hf : (flagsOf scope st)[j]? = some f) :
    (flagsOf scope st1)[j]? =
      some { f with
        kind := (lastValue j (occurrences P (flagsOf scope st) toks)).getD f.kind } := by
  induction n generalizing toks st f with
  | zero =>
    cases toks with
    | nil =>
      simp only [parseLoop, Except.ok.injEq] at h
      subst h
      simpa [occurrences, lastValue] using hf
    | cons t ts => simp at hn
  | succ n ih =>
    cases toks with
    | nil =>
      simp only [parseLoop, Except.ok.injEq] at h
      subst h
      simpa [occurrences, lastValue] using hf
    | cons tok rest =>
      rw [parseLoop_cons] at h
      have hlen : rest.length ≤ n := by
        simp only [List.length_cons] at hn
        omega
      cases hpt : parseToken P scope tok rest st with
      | error e => simp [hpt] at h
      | ok s =>
        rw [hpt] at h
        rcases parseToken_inv P scope tok rest st s hpt with ⟨hsep, hs⟩ | ⟨-, -, hs⟩ |
          ⟨hsep, hdash, f0, hf0, ⟨hty, hs⟩ | ⟨hty, v, r1, hrest, hs⟩ |
            ⟨hty, v, r1, hrest, ⟨-, hs⟩ | ⟨hc, hs⟩⟩⟩
        · subst hs
          simp only [] at h
          rw [ih rest st hlen h h0 f hf, occurrences_cons P _ tok rest]
          simp [occurrenceAt, hsep]
        · subst hs
          simp only [Except.ok.injEq] at h
          rw [← h] at h1
          simp at h1
        · subst hs
          simp only [] at h
          have hocc : occurrences P (flagsOf scope st) (tok :: rest) =
              (flagSearch (afterDash tok) (flagsOf scope st), .boolean true) ::
                occurrences P (flagsOf scope st) rest := by
            rw [occurrences_cons]
            simp [occurrenceAt, hsep, hdash, hf0, hty]
          rw [hocc]
          apply lastValue_step (flagsOf scope st) _ j _ f _ hf
          intro g hg
          have hfl := flagsOf_writeFlag scope scope
            (flagSearch (afterDash tok) (flagsOf scope st))
            (fun f => { f with kind := .boolean true }) st
          rw [if_pos rfl] at hfl
          have := ih rest _ hlen h ((writeFlag_fields _ _ _).1.trans h0) g (by rw [hfl]; exact hg)
          rw [this, hfl, occurrences_modifyAt]
        · subst hs hrest
          simp only [] at h
          have hlen1 : r1.length ≤ n := by
            simp only [List.length_cons] at hlen
            omega
          have hocc : occurrences P (flagsOf scope st) (tok :: v :: r1) =
              (flagSearch (afterDash tok) (flagsOf scope st), .str (some v)) ::
                occurrences P (flagsOf scope st) r1 := by
            rw [occurrences_cons]
            simp [occurrenceAt, hsep, hdash, hf0, hty]
          rw [hocc]
          apply lastValue_step (flagsOf scope st) _ j _ f _ hf
          intro g hg
          have hfl := flagsOf_writeFlag scope scope
            (flagSearch (afterDash tok) (flagsOf scope st))
            (fun f => { f with kind := .str (some v) }) st
          rw [if_pos rfl] at hfl
          have := ih r1 _ hlen1 h ((writeFlag_fields _ _ _).1.trans h0) g (by rw [hfl]; exact hg)
          rw [this, hfl, occurrences_modifyAt]
        · subst hs
          simp only [Except.ok.injEq] at h
          rw [← h] at h1
          simp at h1
        · subst hs hrest
          simp only [] at h
          have hlen1 : r1.length ≤ n := by
            simp only [List.length_cons] at hlen
            omega
          have hocc : occurrences P (flagsOf scope st) (tok :: v :: r1) =
              (flagSearch (afterDash tok) (flagsOf scope st),
                  .u64 (strtoull P v st.errno).1) ::
                occurrences P (flagsOf scope st) r1 := by
            rw [occurrences_cons]
            simp [occurrenceAt, hsep, hdash, hf0, hty, strtoull_fst P v st.errno]
          rw [hocc]
          apply lastValue_step (flagsOf scope st) _ j _ f _ hf
          intro g hg
          have hfl := flagsOf_writeFlag scope scope
            (flagSearch (afterDash tok) (flagsOf scope st))
            (fun f => { f with kind := .u64 (strtoull P v st.errno).1 })
            { st with errno := (strtoull P v st.errno).2 }
          rw [if_pos rfl, flagsOf_errno scope st (strtoull P v st.errno).2] at hfl
          have := ih r1 _ hlen1 h ((writeFlag_fields _ _ _).1.trans h0) g (by rw [hfl]; exact hg)
          rw [this, hfl, occurrences_modifyAt]

/-- Whole rounds leave the error marker exactly as it was. -/
theorem rounds_err (P : Platform) (scope : Option Nat) (st st1 : State) (toks : List String)
    (h : Rounds P scope st toks st1) : st1.drapeau_err = st.drapeau_err := by
  induction h with
  | done st => rfl
  | @next st s st1 tok pre hr _ ih =>
    rcases (parseToken_fields P scope tok [] st _ hr).2.2 with ⟨s1, hs, -⟩ | ⟨-, he⟩
    · cases hs
    · exact ih.trans he
  | @next2 st s st1 tok v pre hr _ ih =>
    rcases (parseToken_fields P scope tok [v] st _ hr).2.2 with ⟨s1, hs, -⟩ | ⟨-, he⟩
    · cases hs
    · exact ih.trans he

/-- Whole rounds over all the arguments: the loop returns the state they
reach. -/
theorem rounds_parseLoop (P : Platform) (scope : Option Nat) (st st1 : State)
    (toks : List String) (h : Rounds P scope st toks st1) :
    parseLoop P scope toks st = .ok st1 := by
  have := parseLoop_rounds P scope st st1 toks [] h
  rw [List.append_nil] at this
  rw [this]
  rfl

/-- A loop that returns has run whole rounds over all the arguments, or whole
rounds up to a round that returned. -/
theorem parseLoop_rounds_or_ret (P : Platform) (scope : Option Nat) (n : Nat)
    (toks : List String) (st st1 : State) (hn : toks.length ≤ n)
    (h : parseLoop P scope toks st = .ok st1) :
    Rounds P scope st toks st1 ∨
      ∃ pre tok post sa, toks = pre ++ tok :: post ∧ Rounds P scope st pre sa ∧
        parseToken P scope tok post sa = .ok (.ret st1) := by
  induction n generalizing toks st with
  | zero =>
    cases toks with
    | nil =>
      simp only [parseLoop, Except.ok.injEq] at h
      subst h
      exact Or.inl (Rounds.done _)
    | cons t ts => simp at hn
  | succ n ih =>
    cases toks with
    | nil =>
      simp only [parseLoop, Except.ok.injEq] at h
      subst h
      exact Or.inl (Rounds.done _)
    | cons tok rest =>
      rw [parseLoop_cons] at h
      have hlen : rest.length ≤ n := by
        simp only [List.length_cons] at hn
        omega
      cases hpt : parseToken P scope tok rest st with
      | error e => simp [hpt] at h
      | ok s =>
        cases s with
        | ret s1 =>
          simp only [hpt, Except.ok.injEq] at h
          subst h
          exact Or.inr ⟨[], tok, rest, st, rfl, Rounds.done _, hpt⟩
        | next s1 =>
          simp only [hpt] at h
          have hr := parseToken_next_any P scope tok rest [] st s1 hpt
          rcases ih rest s1 hlen h with h1 | ⟨pre, t, post, sa, he, hr1, hret⟩
          · exact Or.inl (Rounds.next hr h1)
          · exact Or.inr ⟨tok :: pre, t, post, sa, by rw [he]; rfl, Rounds.next hr hr1, hret⟩
        | next2 s1 =>
          simp only [hpt] at h
          cases rest with
          | nil => simp at h
          | cons v rest1 =>
            simp only [] at h
            have hlen1 : rest1.length ≤ n := by
              simp only [List.length_cons] at hlen
              omega
            have hr : parseToken P scope tok [v] st = .ok (.next2 s1) := by
              rw [← parseToken_head P scope tok (v :: rest1) [v] st rfl]
              exact hpt
            rcases ih rest1 s1 hlen1 h with h1 | ⟨pre, t, post, sa, he, hr1, hret⟩
            · exact Or.inl (Rounds.next2 hr h1)
            · exact Or.inr ⟨tok :: v :: pre, t, post, sa, by rw [he]; rfl,
                Rounds.next2 hr hr1, hret⟩

/-! ## The claims on parsing as a whole -/

/-- C11: in a registry, after a call of `drapeauParse` that returns with no
error recorded, every flag of the active scope that has a matched occurrence
among the arguments holds the value that its last occurrence assigns: true for
a boolean flag, the number read from the next argument for an integer flag,
the next argument itself for a string flag. -/
theorem C11_last_occurrence_wins (P : Platform) (st : State) (hreg : Registry P st)
    (argv : List String) (st1 : State) (hparse : drapeauParse P argv st = .ok st1)
    (hok : st1.drapeau_err = .DRAPEAU_ERR_KIND_OK) (j : Nat) (f : Flag)
    (hf : (flagsOf st1.activated_subcmd st)[j]? = some f) (k : FlagKind)
    (hlast : lastValue j (occurrences P (flagsOf st1.activated_subcmd st) (loopArgs argv)) =
      some k) :
    (flagsOf st1.activated_subcmd st1)[j]? = some { f with kind := k } := by
  obtain ⟨-, herr, -, -⟩ := registry_inv P st hreg
  have hact := registry_activated P st hreg
  match argv, hparse, hlast with
  | [], _, hlast => simp [loopArgs, occurrences, lastValue] at hlast
  | [_], _, hlast => simp [loopArgs, occurrences, lastValue] at hlast
  | prog :: first :: rest, hparse, hlast =>
    by_cases hdash : startsWithDash first = true
    · rw [drapeauParse_global P st prog first rest hdash] at hparse
      have hsc : st1.activated_subcmd = none :=
        (parseLoop_activated P none _ st st1 hparse).trans hact
      rw [hsc] at hf hlast ⊢
      simp only [loopArgs, hdash, if_true] at hlast
      rw [parseLoop_last P none _ _ st st1 (le_refl _) hparse herr hok j f hf, hlast]
      rfl
    · have hd : startsWithDash first = false := by simpa using hdash
      cases hfind : findSubcmdPosition P st first with
      | error e => simp [drapeauParse, hd, hfind] at hparse
      | ok o =>
        cases o with
        | none =>
          simp only [drapeauParse, hd, Bool.not_false, if_true, hfind, Except.ok.injEq] at hparse
          rw [← hparse] at hok
          simp at hok
        | some pos =>
          by_cases hpos : pos < st.subcommands.length
          · rw [drapeauParse_subcmd P st prog first rest pos hd hfind hpos] at hparse
            have hsc : st1.activated_subcmd = some pos :=
              parseLoop_activated P (some pos) _ _ st1 hparse
            rw [hsc] at hf hlast ⊢
            simp only [loopArgs, hd, Bool.false_eq_true, if_false] at hlast
            rw [← flagsOf_activate st pos (some pos)] at hf hlast
            rw [parseLoop_last P (some pos) _ _ _ st1 (le_refl _) hparse herr hok j f hf, hlast]
            rfl
          · simp [drapeauParse, hd, hfind, hpos] at hparse

/-- Witness of C11: the instance `prog -s a -s b` leaves the string flag `s`
equal to `b`. -/
theorem C11_last_occurrence_wins_witness :
    (flagsOf none (afterParse glibcPlatform ["prog", "-s", "a", "-s", "b"]
        (toolRegistry glibcPlatform)))[1]? =
      some ⟨"s", .FLAG_TYPE_STRING, .str (some "b"), .str none, "a text"⟩ :=
  C11_last_occurrence_wins glibcPlatform (toolRegistry glibcPlatform) toolRegistry_registry
    ["prog", "-s", "a", "-s", "b"]
    (afterParse glibcPlatform ["prog", "-s", "a", "-s", "b"] (toolRegistry glibcPlatform))
    rfl rfl 1 ⟨"s", .FLAG_TYPE_STRING, .str none, .str none, "a text"⟩ rfl
    (.str (some "b")) rfl

/-- C12: in a registry with pairwise distinct subcommand names, when the first
argument is the name of the subcommand `A` at position `pos`, a call of
`drapeauParse` that returns has activated `A`, and the flag array of every
other scope, the global one and that of every other subcommand, is exactly as
before, whatever names its flags have. -/
theorem C12_scope_isolation (P : Platform) (st : State) (hreg : Registry P st)
    (hnd : (st.subcommands.map Subcmd.name).Nodup) (prog : String) (pos : Nat) (A : Subcmd)
    (hA : st.subcommands[pos]? = some A) (hdash : startsWithDash A.name = false)
    (rest : List String) (st1 : State)
    (hparse : drapeauParse P (prog :: A.name :: rest) st = .ok st1) :
    st1.activated_subcmd = some pos ∧
      ∀ sc, sc ≠ some pos → flagsOf sc st1 = flagsOf sc st := by
  obtain ⟨hI, -, -, -⟩ := registry_inv P st hreg
  have hpos : pos < st.subcommands.length := (List.getElem?_eq_some.mp hA).1
  have hname : (st.subcommands.map Subcmd.name)[pos]? = some A.name := by simp [hA]
  have hfind : findSubcmdPosition P st A.name = .ok (some pos) :=
    findSubcmdPosition_of_first P st hI A.name pos hname (nodup_first _ hnd pos A.name hname)
  rw [drapeauParse_subcmd P st prog A.name rest pos hdash hfind hpos] at hparse
  refine ⟨parseLoop_activated P (some pos) rest _ st1 hparse, ?_⟩
  intro sc hsc
  rw [parseLoop_other_scopes P (some pos) rest _ st1 hparse sc hsc]
  exact flagsOf_activate st pos sc

/-- Witness of C12: `prog build -verbose` sets the flag `verbose` of `build`
and leaves the flag `verbose` of `test` and the global flags alone. -/
theorem C12_scope_isolation_witness :
    flagsOf (some 0) (afterParse glibcPlatform ["prog", "build", "-verbose"]
        (toolRegistry glibcPlatform)) =
      [⟨"verbose", .FLAG_TYPE_BOOL, .boolean true, .boolean false, "say more"⟩] ∧
    (afterParse glibcPlatform ["prog", "build", "-verbose"]
        (toolRegistry glibcPlatform)).activated_subcmd = some 0 ∧
    ∀ sc, sc ≠ some 0 →
      flagsOf sc (afterParse glibcPlatform ["prog", "build", "-verbose"]
        (toolRegistry glibcPlatform)) = flagsOf sc (toolRegistry glibcPlatform) :=
  ⟨rfl, C12_scope_isolation glibcPlatform (toolRegistry glibcPlatform) toolRegistry_registry
    (by decide) "prog" 0
    ⟨"build", "compile", false,
      [⟨"verbose", .FLAG_TYPE_BOOL, .boolean false, .boolean false, "say more"⟩]⟩
    rfl rfl ["-verbose"]
    (afterParse glibcPlatform ["prog", "build", "-verbose"] (toolRegistry glibcPlatform)) rfl⟩

/-- C13: with fewer than two arguments `drapeauParse` returns the state it was
given: no flag value, no activation, not the activated subcommand and not the
error marker is changed. -/
theorem C13_no_arguments (P : Platform) (argv : List String) (st : State)
    (hargc : argv.length < 2) : drapeauParse P argv st = .ok st := by
  match argv, hargc with
  | [], _ => rfl
  | [_], _ => rfl
  | _ :: _ :: _, h =>
    simp only [List.length_cons] at h
    omega

/-- Witness of C13: `prog` alone on the example registry. -/
theorem C13_no_arguments_witness :
    ["prog"].length < 2 ∧
    drapeauParse glibcPlatform ["prog"] (toolRegistry glibcPlatform) =
      .ok (toolRegistry glibcPlatform) :=
  ⟨by decide, C13_no_arguments glibcPlatform ["prog"] (toolRegistry glibcPlatform) (by decide)⟩

/-- Counterexample to C14 as stated: on `prog -n 5 -n 99999999999999999999` the
first `-n` is matched and assigns 5, as the parse of `prog -n 5` shows; the
error is recorded at the second value, and in the final state `n` is
`ULLONG_MAX`: the assignment of 5 is not in effect. -/
theorem C14_counterexample_earlier_assignment_lost :
    (drapeauParse glibcPlatform ["prog", "-n", "5"] (toolRegistry glibcPlatform)).map
        (fun s => (s.drapeau_err, (flagsOf none s)[0]?)) =
      .ok (.DRAPEAU_ERR_KIND_OK, some ⟨"n", .FLAG_TYPE_U64, .u64 5, .u64 7, "a number"⟩) ∧
    (drapeauParse glibcPlatform ["prog", "-n", "5", "-n", "99999999999999999999"]
        (toolRegistry glibcPlatform)).map (fun s => (s.drapeau_err, (flagsOf none s)[0]?)) =
      .ok (.DRAPEAU_ERR_KIND_INAVLID_NUMBER,
        some ⟨"n", .FLAG_TYPE_U64, .u64 18446744073709551615, .u64 7, "a number"⟩) :=
  ⟨rfl, rfl⟩

/-- C14, amended: let whole rounds of the loop consume `pre` and reach `sa`, and
let the round on the next token `tok` return `st1`.  Then the loop returns
`st1`, with an error recorded.  For the flag-not-found error the result is the
same whatever follows `tok`, and every flag array is as in `sa`.  For the
invalid-number error `tok` is followed by a value, the result is the same
whatever follows the value, and every flag slot is as in `sa` except the slot
of the flag that `tok` names. -/
theorem C14_fail_fast (P : Platform) (scope : Option Nat) (st sa st1 : State)
    (pre post : List String) (tok : String) (hpre : Rounds P scope st pre sa)
    (hfail : parseToken P scope tok post sa = .ok (.ret st1)) :
    parseLoop P scope (pre ++ tok :: post) st = .ok st1 ∧
    ((st1.drapeau_err = .DRAPEAU_ERR_KIND_FLAG_FIND ∧
        (∀ post1, parseLoop P scope (pre ++ tok :: post1) st = .ok st1) ∧
        ∀ sc, flagsOf sc st1 = flagsOf sc sa) ∨
      (st1.drapeau_err = .DRAPEAU_ERR_KIND_INAVLID_NUMBER ∧
        ∃ v rest, post = v :: rest ∧
          (∀ rest1, parseLoop P scope (pre ++ tok :: v :: rest1) st = .ok st1) ∧
          ∀ sc i, (sc ≠ scope ∨ i ≠ flagSearch (afterDash tok) (flagsOf scope sa)) →
            (flagsOf sc st1)[i]? = (flagsOf sc sa)[i]?)) := by
  have hloop : ∀ post1, parseToken P scope tok post1 sa = .ok (.ret st1) →
      parseLoop P scope (pre ++ tok :: post1) st = .ok st1 := by
    intro post1 h
    rw [parseLoop_rounds P scope st sa pre _ hpre, parseLoop_cons, h]
  refine ⟨hloop post hfail, ?_⟩
  rcases parseToken_inv P scope tok post sa _ hfail with ⟨-, hs⟩ | ⟨hsep, hno, hs⟩ |
    ⟨hsep, hdash, f, hf, ⟨-, hs⟩ | ⟨-, v, r1, -, hs⟩ | ⟨hty, v, r1, hrest, ⟨hc, hs⟩ | ⟨-, hs⟩⟩⟩
  · cases hs
  · left
    simp only [Step.ret.injEq] at hs
    subst hs
    refine ⟨rfl, ?_, fun sc => flagsOf_err sc sa _⟩
    intro post1
    apply hloop
    rcases hno with h | h
    · simp [parseToken, hsep, h]
    · by_cases hd : startsWithDash tok = true
      · simp [parseToken, hsep, hd, h]
      · simp [parseToken, hsep, hd]
  · cases hs
  · cases hs
  · right
    simp only [Step.ret.injEq] at hs
    subst hs
    refine ⟨rfl, v, r1, hrest, ?_, ?_⟩
    · intro rest1
      apply hloop
      rw [parseToken_u64 P scope tok v rest1 sa f hsep hdash hf hty, if_pos hc]
    · intro sc i hne
      rw [flagsOf_err, flagsOf_writeFlag, flagsOf_errno sc sa (strtoull P v sa.errno).2]
      by_cases e : sc = scope
      · rw [if_pos e, getElem?_modifyAt]
        rcases hne with h1 | h1
        · exact absurd e h1
        · rw [if_neg h1]
      · rw [if_neg e]
  · cases hs

/-- Witness of C14, amended: `prog -debug -n 99999999999999999999 -debug`: the
round on `-debug` is whole, the round on `-n` returns. -/
theorem C14_fail_fast_witness :
    parseLoop glibcPlatform none (["-debug"] ++ "-n" :: ["99999999999999999999", "-debug"])
        (toolRegistry glibcPlatform) =
      .ok (afterParse glibcPlatform ["prog", "-debug", "-n", "99999999999999999999"]
        (toolRegistry glibcPlatform)) ∧
    (afterParse glibcPlatform ["prog", "-debug", "-n", "99999999999999999999"]
        (toolRegistry glibcPlatform)).drapeau_err = .DRAPEAU_ERR_KIND_INAVLID_NUMBER ∧
    (flagsOf none (afterParse glibcPlatform ["prog", "-debug", "-n", "99999999999999999999"]
        (toolRegistry glibcPlatform)))[2]? =
      some ⟨"debug", .FLAG_TYPE_BOOL, .boolean true, .boolean false, "more output"⟩ :=
  ⟨(C14_fail_fast glibcPlatform none (toolRegistry glibcPlatform)
      (afterParse glibcPlatform ["prog", "-debug"] (toolRegistry glibcPlatform))
      (afterParse glibcPlatform ["prog", "-debug", "-n", "99999999999999999999"]
        (toolRegistry glibcPlatform))
      ["-debug"] ["99999999999999999999", "-debug"] "-n"
      (Rounds.next rfl (Rounds.done _)) rfl).1,
    rfl, rfl⟩

/-- C15: `drapeauParse` on `prog --` followed by nothing or by arguments of
which the first starts with `-` does what it does on `prog` followed by them;
and where the loop examines an argument in flag position, after whole rounds
on the arguments before it, a `--` put in front of it changes nothing: the
loop goes on with the arguments behind the `--`. -/
theorem C15_separator_is_skipped (P : Platform) (st : State) (prog : String)
    (rest : List String)
    (hrest : rest = [] ∨ ∃ t r, rest = t :: r ∧ startsWithDash t = true)
    (scope : Option Nat) (s0 sa : State) (pre toks : List String)
    (hpre : Rounds P scope s0 pre sa) :
    drapeauParse P (prog :: "--" :: rest) st = drapeauParse P (prog :: rest) st ∧
    parseLoop P scope (pre ++ "--" :: toks) s0 = parseLoop P scope (pre ++ toks) s0 ∧
    parseLoop P scope (pre ++ "--" :: toks) s0 = parseLoop P scope toks sa := by
  have hsep : ∀ (sc : Option Nat) (ts : List String) (s : State),
      parseLoop P sc ("--" :: ts) s = parseLoop P sc ts s := by
    intro sc ts s
    rw [parseLoop_cons]
    simp [parseToken]
  refine ⟨?_, ?_, ?_⟩
  · rw [drapeauParse_global P st prog "--" rest (by decide), hsep]
    rcases hrest with h | ⟨t, r, h, hd⟩
    · subst h
      rfl
    · subst h
      rw [drapeauParse_global P st prog t r hd]
  · rw [parseLoop_rounds P scope s0 sa pre _ hpre, parseLoop_rounds P scope s0 sa pre _ hpre,
      hsep]
  · rw [parseLoop_rounds P scope s0 sa pre _ hpre, hsep]

/-- Witness of C15: `prog -- -n 42` against `prog -n 42`, and `--` put between
`-n 42` and `-debug`. -/
theorem C15_separator_is_skipped_witness :
    drapeauParse glibcPlatform ("prog" :: "--" :: ["-n", "42"]) (toolRegistry glibcPlatform) =
      drapeauParse glibcPlatform ("prog" :: ["-n", "42"]) (toolRegistry glibcPlatform) ∧
    parseLoop glibcPlatform none (["-n", "42"] ++ "--" :: ["-debug"])
        (toolRegistry glibcPlatform) =
      parseLoop glibcPlatform none (["-n", "42"] ++ ["-debug"]) (toolRegistry glibcPlatform) ∧
    parseLoop glibcPlatform none (["-n", "42"] ++ "--" :: ["-debug"])
        (toolRegistry glibcPlatform) =
      parseLoop glibcPlatform none ["-debug"]
        (afterParse glibcPlatform ["prog", "-n", "42"] (toolRegistry glibcPlatform)) :=
  C15_separator_is_skipped glibcPlatform (toolRegistry glibcPlatform) "prog" ["-n", "42"]
    (Or.inr ⟨"-n", ["42"], rfl, by decide⟩) none (toolRegistry glibcPlatform)
    (afterParse glibcPlatform ["prog", "-n", "42"] (toolRegistry glibcPlatform))
    ["-n", "42"] ["-debug"] (Rounds.next2 rfl (Rounds.done _))

/-- C16: for every sequence of bytes the hash stays in 32 bits, the value that
`drapeauHash` returns, `hash ^ (hash >> 10) << 10`, is the low ten bits of the
hash and so is less than `DRAPEAU_HASHMAP_CAPACITY`, for signed and unsigned
`char`; hence the bucket index of every string is in range. -/
theorem C16_hash_in_range (P : Platform) (bs : List Nat) :
    bs.foldl (hashStep P) 0x811c9dc5 < 2 ^ 32 ∧
    hashBytes P bs = bs.foldl (hashStep P) 0x811c9dc5 % 2 ^ 10 ∧
    hashBytes P bs < DRAPEAU_HASHMAP_CAPACITY ∧
    ∀ s : String, drapeauHash P s < DRAPEAU_HASHMAP_CAPACITY := by
  refine ⟨foldl_hashStep_lt P bs _ (by norm_num), hashBytes_eq_mod P bs, ?_,
    fun s => drapeauHash_lt P s⟩
  rw [hashBytes_eq_mod]
  exact Nat.mod_lt _ (by norm_num)

/-- C17: in a registry whose global scope has at slot `j` a string flag named
`s`, the only global flag of that name, `drapeauParse` on `[prog, "-s", t]`
returns for every token `t` with the value of `s` equal to `t`, no error
recorded, and every other flag slot of every scope as before. -/
theorem C17_string_flag_verbatim (P : Platform) (st : State) (hreg : Registry P st)
    (prog : String) (j : Nat) (f : Flag) (hF : st.main_flags[j]? = some f)
    (hname : f.name = "s") (hty : f.type = .FLAG_TYPE_STRING)
    (huniq : ∀ k g, st.main_flags[k]? = some g → g.name = "s" → k = j) (t : String) :
    ∃ st1 f1, drapeauParse P [prog, "-s", t] st = .ok st1 ∧
      st1.main_flags[j]? = some f1 ∧ f1.kind = .str (some t) ∧
      st1.drapeau_err = .DRAPEAU_ERR_KIND_OK ∧
      ∀ sc i, (sc ≠ none ∨ i ≠ j) → (flagsOf sc st1)[i]? = (flagsOf sc st)[i]? := by
  obtain ⟨-, herr, -, -⟩ := registry_inv P st hreg
  have hj : flagSearch (afterDash "-s") (flagsOf none st) = j := by
    apply flagSearch_of_first "s" st.main_flags j f hF hname
    intro k g hk hg e
    have := huniq k g hg e
    omega
  have htok := parseToken_str P none "-s" t [] st f (by decide) (by decide)
    (by rw [hj]; exact hF) hty
  rw [hj] at htok
  refine ⟨writeFlag ⟨none, j⟩ (fun f => { f with kind := .str (some t) }) st,
    { f with kind := .str (some t) }, ?_, ?_, rfl, ?_, ?_⟩
  · rw [drapeauParse_global P st prog "-s" [t] (by decide), parseLoop_cons, htok]
    rfl
  · simp [writeFlag, getElem?_modifyAt, hF]
  · exact herr
  · intro sc i hne
    rw [flagsOf_writeFlag]
    by_cases e : sc = none
    · rw [if_pos e, getElem?_modifyAt]
      rcases hne with h1 | h1
      · exact absurd e h1
      · rw [if_neg h1]
    · rw [if_neg e]

/-- Witness of C17: `prog -s -n`, where `-n` is the token of another declared
flag: `s` is `-n` and `n` keeps its value. -/
theorem C17_string_flag_verbatim_witness :
    ∃ st1 f1, drapeauParse glibcPlatform ["prog", "-s", "-n"] (toolRegistry glibcPlatform) =
        .ok st1 ∧
      st1.main_flags[1]? = some f1 ∧ f1.kind = .str (some "-n") ∧
      st1.drapeau_err = .DRAPEAU_ERR_KIND_OK ∧
      ∀ sc i, (sc ≠ none ∨ i ≠ 1) →
        (flagsOf sc st1)[i]? = (flagsOf sc (toolRegistry glibcPlatform))[i]? :=
  C17_string_flag_verbatim glibcPlatform (toolRegistry glibcPlatform) toolRegistry_registry
    "prog" 1 ⟨"s", .FLAG_TYPE_STRING, .str none, .str none, "a text"⟩ rfl rfl rfl
    (by
      intro k g hg hn
      have hfl := toolRegistry_flags.1
      simp only [flagsOf] at hfl
      rw [hfl] at hg
      match k, hg with
      | 0, hg =>
        simp only [List.getElem?_cons_zero, Option.some.injEq] at hg
        rw [← hg] at hn
        exact absurd hn (by decide)
      | 1, _ => rfl
      | 2, hg =>
        simp only [List.getElem?_cons_succ, List.getElem?_cons_zero, Option.some.injEq] at hg
        rw [← hg] at hn
        exact absurd hn (by decide)
      | k + 3, hg => simp at hg)
    "-n"

/-- C18, the failing input: with an integer flag or a string flag as the last
argument, `prog -n` and `prog -s`, the round increments `arg` to `argc` and
then reads `argv[arg++]` for the value: the position read is `argc`. -/
theorem C18_value_flag_last_overruns (P : Platform) :
    drapeauParse P ["prog", "-n"] (toolRegistry P) = .error .argvOverrun ∧
    drapeauParse P ["prog", "-s"] (toolRegistry P) = .error .argvOverrun := by
  obtain ⟨a, b⟩ := P
  cases a <;> cases b <;> exact ⟨rfl, rfl⟩

/-- Counterexample to C19 as stated: after two declarations of the name `build`,
at positions 0 and 1, the lookup of `build` gives position 0, the earlier
one. -/
theorem C19_counterexample_first_wins :
    ∃ st, declareSubcmds glibcPlatform [("build", "first"), ("build", "second")]
        (drapeauStart "prog" "" State.init) = .ok st ∧
      st.subcommands = [⟨"build", "first", false, []⟩, ⟨"build", "second", false, []⟩] ∧
      findSubcmdPosition glibcPlatform st "build" = .ok (some 0) :=
  ⟨afterSubcmd glibcPlatform "build" "second"
      (afterSubcmd glibcPlatform "build" "first" (drapeauStart "prog" "" State.init)),
    rfl, rfl, rfl⟩

/-- C19, amended: after `drapeauStart` and at most `SUBCOMMAND_CAPACITY` calls of
`drapeauSubcmd`, names repeated or not, the lookup of a declared name gives the
first position that was declared with it: an earlier declaration shadows
every later one of the same name. -/
theorem C19_first_declaration_wins (P : Platform) (prog pdesc : String)
    (subs : List (String × String)) (hcap : subs.length ≤ SUBCOMMAND_CAPACITY) :
    ∃ st, declareSubcmds P subs (drapeauStart prog pdesc State.init) = .ok st ∧
      ∀ k name, (subs.map Prod.fst)[k]? = some name →
        ∃ i, i ≤ k ∧ (subs.map Prod.fst)[i]? = some name ∧
          (∀ j, j < i → (subs.map Prod.fst)[j]? ≠ some name) ∧
          findSubcmdPosition P st name = .ok (some i) := by
  obtain ⟨st, hst, hI, hnames⟩ := declareSubcmds_ok P subs (drapeauStart prog pdesc State.init)
    (indexAgrees_start P prog pdesc) (by simpa [drapeauStart, State.init] using hcap)
  refine ⟨st, hst, ?_⟩
  intro k name hk
  have hn : st.subcommands.map Subcmd.name = subs.map Prod.fst := by
    simpa [drapeauStart, State.init] using hnames
  obtain ⟨i, hik, hi, hfirst⟩ := exists_first _ k name hk
  refine ⟨i, hik, hi, hfirst, ?_⟩
  apply findSubcmdPosition_of_first P st hI name i
  · rw [hn]
    exact hi
  · rw [hn]
    exact hfirst

/-- Witness of C19, amended: `build` declared at positions 0 and 2. -/
theorem C19_first_declaration_wins_witness :
    ∃ st, declareSubcmds glibcPlatform [("build", "a"), ("test", "b"), ("build", "c")]
        (drapeauStart "prog" "" State.init) = .ok st ∧
      ∀ k name, ([("build", "a"), ("test", "b"), ("build", "c")].map Prod.fst)[k]? = some name →
        ∃ i, i ≤ k ∧
          ([("build", "a"), ("test", "b"), ("build", "c")].map Prod.fst)[i]? = some name ∧
          (∀ j, j < i →
            ([("build", "a"), ("test", "b"), ("build", "c")].map Prod.fst)[j]? ≠ some name) ∧
          findSubcmdPosition glibcPlatform st name = .ok (some i) :=
  C19_first_declaration_wins glibcPlatform "prog" ""
    [("build", "a"), ("test", "b"), ("build", "c")] (by decide)

/-- C20: every operation that returns leaves the error marker as it was or sets
an error, so a marker that is not `OK` before is not `OK` after, and
`drapeauPrintErr` gives null after a parse only when the marker was `OK`
before.  A `drapeauParse` that meets no error itself, that is, whose loop runs
whole rounds over all its arguments, returns with the marker exactly as it
was, whatever it was; and a `drapeauParse` that returns with another marker
has had its lookup fail or had a round return with one of the two errors of
the loop. -/
theorem C20_error_marker_sticky (P : Platform) (st : State) :
    (∀ name desc, (drapeauStart name desc st).drapeau_err = st.drapeau_err) ∧
    (∀ name desc st1 h, drapeauSubcmd P name desc st = .ok (st1, h) →
      st1.drapeau_err = st.drapeau_err) ∧
    (∀ name v desc sub r st1, drapeauBool P name v desc sub st = .ok (r, st1) →
      st1.drapeau_err = st.drapeau_err ∨
        st1.drapeau_err = .DRAPEAU_ERR_KIND_SUBCOMMAND_FIND) ∧
    (∀ name v desc sub r st1, drapeauU64 P name v desc sub st = .ok (r, st1) →
      st1.drapeau_err = st.drapeau_err ∨
        st1.drapeau_err = .DRAPEAU_ERR_KIND_SUBCOMMAND_FIND) ∧
    (∀ name v desc sub r st1, drapeauStr P name v desc sub st = .ok (r, st1) →
      st1.drapeau_err = st.drapeau_err ∨
        st1.drapeau_err = .DRAPEAU_ERR_KIND_SUBCOMMAND_FIND) ∧
    (∀ argv st1, drapeauParse P argv st = .ok st1 →
      (st1.drapeau_err = st.drapeau_err ∨ st1.drapeau_err ≠ .DRAPEAU_ERR_KIND_OK) ∧
      (st.drapeau_err ≠ .DRAPEAU_ERR_KIND_OK → st1.drapeau_err ≠ .DRAPEAU_ERR_KIND_OK) ∧
      (drapeauPrintErr st1 = none → st.drapeau_err = .DRAPEAU_ERR_KIND_OK)) ∧
    (∀ scope toks s1, Rounds P scope st toks s1 →
      parseLoop P scope toks st = .ok s1 ∧ s1.drapeau_err = st.drapeau_err) ∧
    (∀ prog first rest s1, startsWithDash first = true →
      Rounds P none st (first :: rest) s1 →
      drapeauParse P (prog :: first :: rest) st = .ok s1 ∧
        s1.drapeau_err = st.drapeau_err) ∧
    (∀ prog first rest pos s1, startsWithDash first = false →
      findSubcmdPosition P st first = .ok (some pos) → pos < st.subcommands.length →
      Rounds P (some pos)
        { st with
          activated_subcmd := some pos
          subcommands := modifyAt (fun c => { c with is_activate := true }) pos st.subcommands }
        rest s1 →
      drapeauParse P (prog :: first :: rest) st = .ok s1 ∧
        s1.drapeau_err = st.drapeau_err) ∧
    (∀ argv st1, drapeauParse P argv st = .ok st1 →
      st1.drapeau_err = st.drapeau_err ∨
        st1 = { st with drapeau_err := .DRAPEAU_ERR_KIND_SUBCOMMAND_FIND } ∨
        ∃ scope sa tok post, parseToken P scope tok post sa = .ok (.ret st1) ∧
          (st1.drapeau_err = .DRAPEAU_ERR_KIND_FLAG_FIND ∨
            st1.drapeau_err = .DRAPEAU_ERR_KIND_INAVLID_NUMBER)) ∧
    (∀ argv : List String, argv.length < 2 → drapeauParse P argv st = .ok st) := by
  have hloop : ∀ (scope : Option Nat) (toks : List String) (s0 st1 : State),
      parseLoop P scope toks s0 = .ok st1 →
      st1.drapeau_err = s0.drapeau_err ∨
        ∃ scope sa tok post, parseToken P scope tok post sa = .ok (.ret st1) ∧
          (st1.drapeau_err = .DRAPEAU_ERR_KIND_FLAG_FIND ∨
            st1.drapeau_err = .DRAPEAU_ERR_KIND_INAVLID_NUMBER) := by
    intro scope toks s0 st1 h
    rcases parseLoop_rounds_or_ret P scope toks.length toks s0 st1 (le_refl _) h with
      hr | ⟨pre, tok, post, sa, -, -, hret⟩
    · exact Or.inl (rounds_err P scope s0 st1 toks hr)
    · refine Or.inr ⟨scope, sa, tok, post, hret, ?_⟩
      rcases (parseToken_fields P scope tok post sa _ hret).2.2 with ⟨s1, hs, he⟩ | ⟨⟨s1, hs⟩, -⟩
      · simp only [Step.ret.injEq] at hs
        rw [hs]
        exact he
      · rcases hs with hs | hs <;> cases hs
  refine ⟨fun _ _ => rfl, ?_, ?_, ?_, ?_, ?_, ?_, ?_, ?_, ?_, ?_⟩
  · intro name desc st1 h hs
    by_cases hlen : st.subcommands.length < SUBCOMMAND_CAPACITY
    · obtain ⟨st2, h2, -, -, he, -, -, -⟩ := drapeauSubcmd_ok P name desc st hlen
      rw [h2] at hs
      simp only [Except.ok.injEq, Prod.mk.injEq] at hs
      rw [← hs.1, he]
    · simp [drapeauSubcmd, hlen] at hs
  · intro name v desc sub r st1 hs
    exact (declareFlag_fields P _ _ _ _ sub st st1 r hs).2.2
  · intro name v desc sub r st1 hs
    exact (declareFlag_fields P _ _ _ _ sub st st1 r hs).2.2
  · intro name v desc sub r st1 hs
    exact (declareFlag_fields P _ _ _ _ sub st st1 r hs).2.2
  · intro argv st1 hs
    have key : st1.drapeau_err = st.drapeau_err ∨ st1.drapeau_err ≠ .DRAPEAU_ERR_KIND_OK := by
      unfold drapeauParse at hs
      match argv, hs with
      | [], hs =>
        simp only [Except.ok.injEq] at hs
        exact Or.inl (by rw [hs])
      | [_], hs =>
        simp only [Except.ok.injEq] at hs
        exact Or.inl (by rw [hs])
      | prog :: first :: rest, hs =>
        simp only [] at hs
        by_cases hdash : startsWithDash first = true
        · simp only [hdash, Bool.not_true, Bool.false_eq_true, if_false] at hs
          exact parseLoop_err P none _ st st1 hs
        · simp only [hdash, Bool.not_false, if_true] at hs
          cases hf : findSubcmdPosition P st first with
          | error e => simp [hf] at hs
          | ok o =>
            cases o with
            | none =>
              simp only [hf, Except.ok.injEq] at hs
              exact Or.inr (by rw [← hs]; simp)
            | some pos =>
              simp only [hf] at hs
              by_cases hpos : pos < st.subcommands.length
              · simp only [hpos, if_true] at hs
                have h2 := parseLoop_err P (some pos) rest _ st1 hs
                exact h2
              · simp [hpos] at hs
    refine ⟨key, ?_, ?_⟩
    · intro hne
      rcases key with h | h
      · rw [h]
        exact hne
      · exact h
    · intro hnull
      have h1 : st1.drapeau_err = .DRAPEAU_ERR_KIND_OK := by
        unfold drapeauPrintErr at hnull
        cases he : st1.drapeau_err <;> simp [he] at hnull
        rfl
      rcases key with h | h
      · rw [← h, h1]
      · exact absurd h1 h
  · intro scope toks s1 hr
    exact ⟨rounds_parseLoop P scope st s1 toks hr, rounds_err P scope st s1 toks hr⟩
  · intro prog first rest s1 hdash hr
    rw [drapeauParse_global P st prog first rest hdash]
    exact ⟨rounds_parseLoop P none st s1 _ hr, rounds_err P none st s1 _ hr⟩
  · intro prog first rest pos s1 hdash hfind hpos hr
    rw [drapeauParse_subcmd P st prog first rest pos hdash hfind hpos]
    have he := rounds_err P (some pos) _ s1 rest hr
    exact ⟨rounds_parseLoop P (some pos) _ s1 rest hr, he⟩
  · intro argv st1 hs
    match argv, hs with
    | [], hs =>
      simp only [drapeauParse, Except.ok.injEq] at hs
      exact Or.inl (by rw [hs])
    | [_], hs =>
      simp only [drapeauParse, Except.ok.injEq] at hs
      exact Or.inl (by rw [hs])
    | prog :: first :: rest, hs =>
      by_cases hdash : startsWithDash first = true
      · rw [drapeauParse_global P st prog first rest hdash] at hs
        rcases hloop none _ st st1 hs with h | h
        · exact Or.inl h
        · exact Or.inr (Or.inr h)
      · have hd : startsWithDash first = false := by simpa using hdash
        cases hf : findSubcmdPosition P st first with
        | error e => simp [drapeauParse, hd, hf] at hs
        | ok o =>
          cases o with
          | none =>
            simp only [drapeauParse, hd, Bool.not_false, if_true, hf, Except.ok.injEq] at hs
            exact Or.inr (Or.inl hs.symm)
          | some pos =>
            by_cases hpos : pos < st.subcommands.length
            · rw [drapeauParse_subcmd P st prog first rest pos hd hf hpos] at hs
              rcases hloop (some pos) _ _ st1 hs with h | h
              · exact Or.inl h
              · exact Or.inr (Or.inr h)
            · simp [drapeauParse, hd, hf, hpos] at hs
  · intro argv hargc
    match argv, hargc with
    | [], _ => rfl
    | [_], _ => rfl
    | _ :: _ :: _, h =>
      simp only [List.length_cons] at h
      omega

/-- Witness of C20: after `prog -bogus` has recorded the flag-not-found error,
the valid `prog -n 42` meets no error and returns with the marker still
flag-not-found. -/
theorem C20_error_marker_sticky_witness :
    (afterParse glibcPlatform ["prog", "-bogus"] (toolRegistry glibcPlatform)).drapeau_err =
      .DRAPEAU_ERR_KIND_FLAG_FIND ∧
    drapeauParse glibcPlatform ("prog" :: "-n" :: ["42"])
        (afterParse glibcPlatform ["prog", "-bogus"] (toolRegistry glibcPlatform)) =
      .ok (afterParse glibcPlatform ["prog", "-n", "42"]
        (afterParse glibcPlatform ["prog", "-bogus"] (toolRegistry glibcPlatform))) ∧
    (afterParse glibcPlatform ["prog", "-n", "42"]
      (afterParse glibcPlatform ["prog", "-bogus"] (toolRegistry glibcPlatform))).drapeau_err =
      (afterParse glibcPlatform ["prog", "-bogus"] (toolRegistry glibcPlatform)).drapeau_err :=
  ⟨rfl,
    (C20_error_marker_sticky glibcPlatform
      (afterParse glibcPlatform ["prog", "-bogus"] (toolRegistry glibcPlatform))).2.2.2.2.2.2.2.1
      "prog" "-n" ["42"]
      (afterParse glibcPlatform ["prog", "-n", "42"]
        (afterParse glibcPlatform ["prog", "-bogus"] (toolRegistry glibcPlatform)))
      (by decide) (Rounds.next2 rfl (Rounds.done _))⟩

end Drapeau
